import Mathlib

/-!
Verification development for the ams declarative orchestrator
(manifest registry and route matcher, context builder, agent loop,
session memory, HTTP tools).  Go maps over string keys are modelled as
association lists with insert-or-replace semantics; Go `any` values are
modelled by the inductive type JValue; external collaborators (HTTP
transport, environment, clock, LLM backend) are modelled as oracle
function parameters.  Definitions come first, theorems follow.
-/

set_option maxHeartbeats 1000000
set_option linter.dupNamespace false
set_option linter.deprecated false
set_option linter.unusedVariables false

namespace Ams

/-- Insert-or-replace in an association list: models the Go map
assignment m[k] = v. -/
def upsert {α : Type} : List (String × α) → String → α → List (String × α)
  | [], k, v => [(k, v)]
  | (k0, v0) :: rest, k, v =>
    if k0 = k then (k, v) :: rest else (k0, v0) :: upsert rest k v

/-- Lookup in an association list: models the Go map read m[k]. -/
def alookup {α : Type} : List (String × α) → String → Option α
  | [], _ => none
  | (k0, v) :: rest, k => if k0 = k then some v else alookup rest k

/-- Go `any` values as decoded from JSON or written in a manifest. -/
inductive JValue : Type
  | null
  | bool (b : Bool)
  | num (n : Int)
  | str (s : String)
  | arr (elems : List JValue)
  | obj (fields : List (String × JValue))

mutual

/-- The string form fmt.Sprint / fmt.Sprintf %v of a Go value, used by
template substitution.  (Go additionally sorts map keys when printing;
no claim in this development reads the printed form of an object.) -/
def JValue.toGoString : JValue → String
  | .null => "<nil>"
  | .bool b => if b then "true" else "false"
  | .num n => toString n
  | .str s => s
  | .arr elems => "[" ++ JValue.listToGoString elems ++ "]"
  | .obj fields => "map[" ++ JValue.objToGoString fields ++ "]"

def JValue.listToGoString : List JValue → String
  | [] => ""
  | [v] => JValue.toGoString v
  | v :: rest => JValue.toGoString v ++ " " ++ JValue.listToGoString rest

def JValue.objToGoString : List (String × JValue) → String
  | [] => ""
  | [(k, v)] => k ++ ":" ++ JValue.toGoString v
  | (k, v) :: rest => k ++ ":" ++ JValue.toGoString v ++ " " ++ JValue.objToGoString rest

end

namespace Manifest

/-- manifest.Provider.  Header and parameter maps are association
lists; the body is an optional JValue. -/
structure Provider where
  type : String
  name : String
  url : String
  method : String
  headers : List (String × String)
  body : Option JValue
  timeout : String
  params : List (String × JValue)
  condition : String
  optional : Bool

/-- manifest.ToolConfig. -/
structure ToolConfig where
  method : String
  url : String
  headers : List (String × String)
  body : Option JValue
  timeout : String
  responsePath : String
  operation : String

/-- manifest.ToolParameter. -/
structure ToolParameter where
  name : String
  type : String
  description : String
  required : Bool
  source : String
  contextPath : String
  enum : List String
  default : Option JValue

/-- manifest.Tool. -/
structure Tool where
  name : String
  description : String
  type : String
  config : ToolConfig
  parameters : List ToolParameter

/-- manifest.Safety.  MaxCostPerQuery is a float64 in Go; it is carried
here as an integer-valued field no claim ever reads. -/
structure Safety where
  requireConfirmation : List String
  maxCostPerQuery : Int
  piiProtection : Bool
  rateLimitPerUser : Int

/-- manifest.Context. -/
structure Context where
  providers : List Provider

/-- manifest.Route. -/
structure Route where
  pattern : String
  name : String
  description : String
  context : Context
  tools : List Tool
  agentInstructions : String
  safety : Safety

/-- manifest.Manifest. -/
structure Manifest where
  version : String
  routes : List Route
  fallback : Option Route

/-- manifest.RouteMatch.  The Go Route pointer is non-nil on every
value the registry constructs, so the route is carried directly. -/
structure RouteMatch where
  route : Route
  params : List (String × String)
  query : List (String × String)

/-! ## Route compilation (Registry.compileRoute)

compileRoute scans the pattern with the regex colon-backslash-w-plus,
collecting the parameter names, and replaces each occurrence by the
one-segment capture group, anchoring the result.  Both the parameter
extraction and the replacement are driven by the same leftmost-longest
occurrences of colon-plus-word-run, so they are modelled by a single
tokenizer whose capture tokens are those occurrences in order. -/
/-- A piece of the compiled pattern: a literal character, or the
one-segment capture group that replaced a :identifier occurrence. -/
inductive Tok : Type
  | lit (c : Char)
  | cap (name : String)
deriving DecidableEq

/-- The Go regexp word class backslash-w: ASCII letters, digits and
underscore. -/
def isWordChar (c : Char) : Bool := c.isAlphanum || c = '_'

/-- Tokenize a route pattern: each colon followed by a nonempty maximal
run of word characters becomes a capture token named by that run; every
other character is a literal. -/
def tokenize : List Char → List Tok
  | [] => []
  | c :: rest =>
    if c = ':' ∧ rest.takeWhile isWordChar ≠ [] then
      Tok.cap (String.mk (rest.takeWhile isWordChar)) ::
        tokenize (rest.drop (rest.takeWhile isWordChar).length)
    else
      Tok.lit c :: tokenize rest
termination_by cs => cs.length
decreasing_by
  · simp only [List.length_drop, List.length_cons]
    omega
  · simp only [List.length_cons]
    omega

/-- The ordered parameter-name list a compiled route stores. -/
def capNames (ts : List Tok) : List String :=
  ts.filterMap fun t => match t with | .cap n => some n | .lit _ => none

/-- A compiled route entry (Registry.routeEntry). -/
structure RouteEntry where
  route : Route
  toks : List Tok
  params : List String

/-- Registry.compileRoute.  For patterns whose literal characters are
plain (no regex metacharacters) the compilation always succeeds, and
the stored matcher is the anchored token list. -/
def compileRoute (route : Route) : RouteEntry :=
  let ts := tokenize route.pattern.data
  { route := route, toks := ts, params := capNames ts }

/-- Characters that are metacharacters of Go regexp syntax.  The
compiled pattern concatenates pattern characters unescaped, so the
token-list matcher below models the compiled regex exactly when every
literal character of the pattern is plain. -/
def isRegexMeta (c : Char) : Bool :=
  c = '.' || c = '+' || c = '*' || c = '?' || c = '(' || c = ')' ||
  c = '|' || c = '[' || c = ']' || c = '\x7b' || c = '\x7d' ||
  c = '^' || c = '$' || c = '\\'

/-- A pattern whose literal characters all stand for themselves in the
compiled regex. -/
def plainPattern (pattern : String) : Bool :=
  (tokenize pattern.data).all fun t =>
    match t with | Tok.lit c => !(isRegexMeta c) | Tok.cap _ => true

mutual

/-- Anchored matching of a compiled token list against a path, with the
leftmost-first (greedy, backtracking) capture semantics of the Go
regexp engine on this fragment: each capture group prefers the longest
nonempty slash-free prefix that lets the rest of the pattern match.
Returns the list of captured groups in order. -/
def matchToks : List Tok → List Char → Option (List String)
  | [], s => if s.isEmpty then some [] else none
  | .lit c :: ts, s =>
    match s with
    | [] => none
    | x :: xs => if x = c then matchToks ts xs else none
  | .cap _ :: ts, s => capGo ts s ((s.takeWhile fun c => c ≠ '/').length)
termination_by ts _ => (ts.length, 0)

/-- The greedy loop of a capture group: try a capture of length k,
k-1, ..., 1. -/
def capGo : List Tok → List Char → Nat → Option (List String)
  | _, _, 0 => none
  | ts, s, k + 1 =>
    match matchToks ts (s.drop (k + 1)) with
    | some caps => some (String.mk (s.take (k + 1)) :: caps)
    | none => capGo ts s k
termination_by ts _ k => (ts.length, k + 1)

end

/-- Binding of captured groups to parameter names, positionally:
params[name] = match[i+1] in declaration order, later indices
overwriting earlier ones. -/
def bindParams (params : List String) (caps : List String) : List (String × String) :=
  (params.zip caps).foldl (fun m kv => upsert m kv.1 kv.2) []

/-- manifest.Registry after a Load. -/
structure Registry where
  manifest : Option Manifest
  routes : List RouteEntry
  fallback : Option Route

/-- Registry.Load: compiles every route in order and stores the
fallback.  (Load reports an error only when a compiled regex is
invalid, which cannot happen for plain patterns.) -/
def Registry.Load (m : Manifest) : Registry :=
  { manifest := some m, routes := m.routes.map compileRoute, fallback := m.fallback }

/-- Errors Registry.Match can return. -/
inductive MatchErr : Type
  | manifestNotLoaded
  | routeNotFound (path : String)
deriving DecidableEq

/-- First-match scan over the compiled entries in declaration order. -/
def findMatch : List RouteEntry → List Char → Option RouteMatch
  | [], _ => none
  | e :: rest, p =>
    match matchToks e.toks p with
    | some caps =>
      some { route := e.route, params := bindParams e.params caps, query := [] }
    | none => findMatch rest p

/-- Registry.Match: first declared compiled route whose matcher accepts
the path wins; otherwise the fallback with empty params; otherwise a
not-found error. -/
def Registry.Match (r : Registry) (path : String) : Except MatchErr RouteMatch :=
  match r.manifest with
  | none => .error .manifestNotLoaded
  | some _ =>
    match findMatch r.routes path.data with
    | some rm => .ok rm
    | none =>
      match r.fallback with
      | some fb => .ok { route := fb, params := [], query := [] }
      | none => .error (.routeNotFound path)

/-- A concrete one-route manifest for exercising C3. -/
def sampleRouteC3 : Route :=
  { pattern := "/products/:id", name := "products", description := "",
    context := ⟨[]⟩, tools := [], agentInstructions := "",
    safety := ⟨[], 0, false, 0⟩ }

/-- A concrete manifest wrapping sampleRouteC3. -/
def sampleManifestC3 : Manifest :=
  { version := "1.0", routes := [sampleRouteC3], fallback := none }

/-- A concrete route with a duplicated :id parameter for exercising C9. -/
def sampleRouteC9 : Route :=
  { pattern := "/a/:id/b/:id", name := "dup", description := "",
    context := ⟨[]⟩, tools := [], agentInstructions := "",
    safety := ⟨[], 0, false, 0⟩ }

/-! ## Manifest validation (manifest/loader.go) and claim C6 -/
/-- The validation errors of the manifest loader, with the aggregate
constructor NewMultipleValidationErrors. -/
inductive ValidationError : Type
  | missingVersion
  | missingRoutes
  | missingRoutePattern (routeName : String)
  | missingRouteName (pattern : String)
  | missingProviderType (providerName : String)
  | missingProviderName
  | missingProviderURL (providerName : String) (providerType : String)
  | duplicateRouteName (routeName : String)
  | invalidPattern (pattern : String)
  | multipleValidationErrors (errors : List ValidationError)

/-- validateProvider: type nonempty, then name nonempty, then for the
http type a nonempty URL.  Returns the first violation. -/
def validateProvider (p : Provider) : Option ValidationError :=
  if p.type = "" then some (.missingProviderType p.name)
  else if p.name = "" then some .missingProviderName
  else if p.type = "http" ∧ p.url = "" then some (.missingProviderURL p.name p.type)
  else none

/-- The provider loop of validateRoute: first provider error wins. -/
def validateProvidersList : List Provider → Option ValidationError
  | [] => none
  | p :: rest =>
    match validateProvider p with
    | some e => some e
    | none => validateProvidersList rest

/-- validateRoute: pattern nonempty, then name nonempty, then the
providers; only the first violation is returned. -/
def validateRoute (r : Route) : Option ValidationError :=
  if r.pattern = "" then some (.missingRoutePattern r.name)
  else if r.name = "" then some (.missingRouteName r.pattern)
  else validateProvidersList r.context.providers

/-- compileRoutePattern as used during validation: only the
starts-with-slash surface check. -/
def compileRoutePattern (r : Route) : Option ValidationError :=
  if ¬ r.pattern.startsWith "/" ∧ r.pattern ≠ "" then some (.invalidPattern r.pattern)
  else none

/-- The accumulation loop of ValidateManifest over the route list,
carrying the set of seen route names and the accumulated errors. -/
def validateRoutesLoop : List Route → List String → List ValidationError → List ValidationError
  | [], _, acc => acc
  | r :: rest, seen, acc =>
    let acc1 := match validateRoute r with
      | some e => acc ++ [e]
      | none => acc
    let acc2 := if seen.contains r.name then acc1 ++ [.duplicateRouteName r.name] else acc1
    let acc3 := match compileRoutePattern r with
      | some e => acc2 ++ [e]
      | none => acc2
    validateRoutesLoop rest (r.name :: seen) acc3

/-- The fallback-validation step of ValidateManifest: a violating
fallback route appends its error to the accumulated list. -/
def fallbackErrors (fallback : Option Route) (errs : List ValidationError) :
    List ValidationError :=
  match fallback with
  | some fb =>
    match validateRoute fb with
    | some e => errs ++ [e]
    | none => errs
  | none => errs

/-- ValidateManifest: an empty version or an empty route list is
returned alone at once; the per-route errors, duplicate names and
pattern checks are accumulated and, together with a fallback error,
wrapped into a single multiple-validation-errors value when nonempty. -/
def ValidateManifest (m : Manifest) : Option ValidationError :=
  if m.version = "" then some .missingVersion
  else if m.routes.length = 0 then some .missingRoutes
  else
    match fallbackErrors m.fallback (validateRoutesLoop m.routes [] []) with
    | [] => none
    | e :: es => some (.multipleValidationErrors (e :: es))

/-- The violations a returned validation error surfaces: the members of
an aggregate, or the error itself. -/
def surfaced (e : ValidationError) : List ValidationError :=
  match e with
  | .multipleValidationErrors es => es
  | e => [e]

/-- A concrete manifest with two violating routes for exercising C6. -/
def sampleManifestC6 : Manifest :=
  { version := "1.0",
    routes :=
      [ { pattern := "", name := "r1", description := "", context := ⟨[]⟩,
          tools := [], agentInstructions := "", safety := ⟨[], 0, false, 0⟩ },
        { pattern := "/b", name := "", description := "", context := ⟨[]⟩,
          tools := [], agentInstructions := "", safety := ⟨[], 0, false, 0⟩ } ],
    fallback := none }

end Manifest

/-! ## Character-list string operations

The Go standard-library string functions used by the templates are
modelled over character lists, where they compute by structural or
well-founded recursion: strings.ReplaceAll, strings.Contains,
strings.HasPrefix, strings.TrimSpace. -/
/-- strings.HasPrefix on character lists. -/
def hasPrefixChars : List Char → List Char → Bool
  | [], _ => true
  | _ :: _, [] => false
  | p :: ps, c :: cs => decide (p = c) && hasPrefixChars ps cs

/-- strings.Contains on character lists. -/
def containsSub (sub : List Char) : List Char → Bool
  | [] => sub.isEmpty
  | c :: rest => hasPrefixChars sub (c :: rest) || containsSub sub rest

/-- strings.ReplaceAll on character lists, for a nonempty pattern:
leftmost non-overlapping occurrences of pat are replaced by rep.
(Go inserts rep between characters when pat is empty; the templates
never substitute an empty placeholder.) -/
def replaceAll (pat rep : List Char) : List Char → List Char
  | [] => []
  | c :: rest =>
    if h : pat ≠ [] ∧ hasPrefixChars pat (c :: rest) then
      rep ++ replaceAll pat rep ((c :: rest).drop pat.length)
    else
      c :: replaceAll pat rep rest
termination_by s => s.length
decreasing_by
  · have hpref : ∀ (p s : List Char), hasPrefixChars p s = true → p.length ≤ s.length := by
      intro p
      induction p with
      | nil => intro s hp; simp
      | cons x xs ih =>
        intro s hp
        cases s with
        | nil => simp [hasPrefixChars] at hp
        | cons c2 cs =>
          simp only [hasPrefixChars, Bool.and_eq_true] at hp
          simpa using ih cs hp.2
    have hlen : pat.length ≤ (c :: rest).length := hpref pat (c :: rest) h.2
    have hpos : 0 < pat.length := by
      cases pat with
      | nil => exact absurd rfl h.1
      | cons p ps => simp
    simp only [List.length_drop, List.length_cons] at hlen ⊢
    omega
  · simp only [List.length_cons]
    omega

/-- strings.TrimSpace on character lists. -/
def trimChars (s : List Char) : List Char :=
  ((s.dropWhile Char.isWhitespace).reverse.dropWhile Char.isWhitespace).reverse

namespace Ctx

/-- context.User.  Metadata is carried as an association list. -/
structure User where
  id : String
  email : String
  name : String
  permissions : List String
  metadata : List (String × JValue)
  token : String

/-- User.IsAuthenticated on a possibly-nil receiver: non-nil and
nonempty id. -/
def User.IsAuthenticated : Option User → Bool
  | some u => decide (u.id ≠ "")
  | none => false

/-- context.Heading. -/
structure Heading where
  level : Int
  text : String

/-- context.InteractiveElement. -/
structure InteractiveElement where
  type : String
  label : String
  value : String
  id : String

/-- context.AccessibilityContext. -/
structure AccessibilityContext where
  title : String
  interactiveElements : List InteractiveElement
  headings : List Heading

/-- context.ViewportInfo. -/
structure ViewportInfo where
  width : Int
  height : Int

/-- context.FrontendContext. -/
structure FrontendContext where
  anonymousId : String
  accessibility : Option AccessibilityContext
  viewport : Option ViewportInfo
  customData : List (String × JValue)

/-- context.RouteInfo. -/
structure RouteInfo where
  path : String
  name : String
  params : List (String × String)
  query : List (String × String)

/-- context.FullContext. -/
structure FullContext where
  route : RouteInfo
  user : Option User
  frontend : Option FrontendContext
  backend : List (String × JValue)
  instructions : String
  availableTools : List String

/-- The context package error values (context/errors.go), with
aggregated provider failures carrying the failed names and the
individual errors. -/
inductive CtxError : Type
  | providerFailed (providerName : String) (msg : String)
  | providerNotFound (providerName : String)
  | providerTimeout (providerName : String)
  | multipleProvidersFailed (failed : List String) (errors : List CtxError)
  | buildFailed (cause : CtxError)
  | invalidRouteMatch
  | missingRouteConfig
  | providerLoadFailed (providerName : String)
  | unsupportedProviderType (providerType : String)
  | invalidProviderConfig (providerName : String) (reason : String)

/-- context.Provider: the provider abstraction, with its name and its
GetContext behaviour (the HTTP transport behind an HTTPProvider is an
oracle inside getContext). -/
structure Provider where
  name : String
  getContext : List (String × JValue) → Except CtxError JValue

/-- context.ProviderClient: the name-keyed provider map. -/
structure ProviderClient where
  providers : List (String × Provider)

/-- NewProviderClient: inserts each provider under its name, in list
order, into the map (later same-named providers overwrite earlier
ones). -/
def NewProviderClient (ps : List Provider) : ProviderClient :=
  ⟨ps.foldl (fun m p => upsert m p.name p) []⟩

/-- ProviderClient.Get: dispatches by name, or a not-found error. -/
def ProviderClient.Get (c : ProviderClient) (name : String)
    (params : List (String × JValue)) : Except CtxError JValue :=
  match alookup c.providers name with
  | none => .error (.providerNotFound name)
  | some p => p.getContext params

/-- HTTPProvider.resolveEnvVars: scans for env placeholders, replacing
each (possibly empty) name up to the next closing brace by the
environment value; text without a closing brace is left verbatim.  (Go
rescans the replaced output; environment values are assumed free of
further placeholders, per the layered-resolution design note.) -/
def resolveEnvVars (env : String → String) : List Char → List Char
  | [] => []
  | c :: rest =>
    if h : c = '\x7b' ∧ rest.take 4 = ['e', 'n', 'v', '.'] ∧
        containsSub ['\x7d'] (rest.drop 4) then
      let after := rest.drop 4
      let name := after.takeWhile fun ch => ch ≠ '\x7d'
      (env (String.mk name)).data ++ resolveEnvVars env (after.drop (name.length + 1))
    else
      c :: resolveEnvVars env rest
termination_by s => s.length
decreasing_by
  · simp only [List.length_drop, List.length_cons]
    omega
  · simp only [List.length_cons]
    omega

/-- HTTPProvider.resolveTemplate: each parameter placeholder in braces
that occurs in the string is replaced by the parameter's printed value
(map iteration modelled in list order), then env placeholders are
resolved. -/
def HTTPProvider.resolveTemplate (env : String → String)
    (params : List (String × JValue)) (template : String) : String :=
  let step1 := params.foldl (fun result kv =>
      let placeholder := '\x7b' :: (kv.1.data ++ ['\x7d'])
      if containsSub placeholder result then
        replaceAll placeholder (JValue.toGoString kv.2).data result
      else result)
    template.data
  String.mk (resolveEnvVars env step1)

/-- Builder.resolveStringTemplate: unconditional ReplaceAll of each
brace-wrapped key, then of each brace-wrapped route.params.key. -/
def Builder.resolveStringTemplate (params : List (String × JValue))
    (template : String) : String :=
  let step1 := params.foldl (fun result kv =>
      replaceAll ('\x7b' :: (kv.1.data ++ ['\x7d']))
        (JValue.toGoString kv.2).data result)
    template.data
  let step2 := params.foldl (fun result kv =>
      replaceAll ("\x7broute.params.".data ++ kv.1.data ++ ['\x7d'])
        (JValue.toGoString kv.2).data result)
    step1
  String.mk step2

/-- Builder.resolveValue: template-resolve string values, pass others
through. -/
def Builder.resolveValue (params : List (String × JValue)) : JValue → JValue
  | .str s => .str (Builder.resolveStringTemplate params s)
  | v => v

/-- Builder.evaluateCondition: the two recognized conditions read the
user_authenticated flag (with a failed bool assertion defaulting to
false for user.authenticated and true for user.guest); any other
condition is true. -/
def Builder.evaluateCondition (condition : String)
    (params : List (String × JValue)) : Bool :=
  if condition = "user.authenticated" then
    match alookup params "user_authenticated" with
    | some (JValue.bool b) => b
    | _ => false
  else if condition = "user.guest" then
    match alookup params "user_authenticated" with
    | some (JValue.bool b) => !b
    | _ => true
  else
    true

/-- Builder.buildProviderParams: route params, then query params, then
the user keys (user_id, optional user_email and user_name, and the
user_authenticated flag). -/
def Builder.buildProviderParams (rm : Manifest.RouteMatch) (user : Option User) :
    List (String × JValue) :=
  let p1 := rm.params.foldl (fun m kv => upsert m kv.1 (JValue.str kv.2)) []
  let p2 := rm.query.foldl (fun m kv => upsert m kv.1 (JValue.str kv.2)) p1
  match user with
  | some u =>
    let p3 := upsert p2 "user_id" (.str u.id)
    let p4 := if u.email ≠ "" then upsert p3 "user_email" (.str u.email) else p3
    let p5 := if u.name ≠ "" then upsert p4 "user_name" (.str u.name) else p4
    upsert p5 "user_authenticated" (.bool (User.IsAuthenticated (some u)))
  | none => upsert p2 "user_authenticated" (.bool false)

/-- The per-provider parameter map: base params overlaid with the
provider's own params, each value template-resolved against the base
params. -/
def providerCallParams (cfg : Manifest.Provider)
    (baseParams : List (String × JValue)) : List (String × JValue) :=
  cfg.params.foldl (fun m kv => upsert m kv.1 (Builder.resolveValue baseParams kv.2))
    baseParams

/-- The outcome of the provider fan-out: the results map, the names of
failed non-optional providers, and their errors. -/
structure ProvExecOutcome where
  results : List (String × JValue)
  failedProviders : List String
  providerErrors : List CtxError

/-- The fan-out loop of Builder.executeProviders, with the provider
call abstracted by the exec oracle (the loaded client's Get).  A
provider whose condition evaluates false is skipped; a failing
non-optional provider is recorded; a failing optional provider is
ignored; results are keyed by provider name.  The Go code runs the
calls concurrently and collects under a mutex; the results map and the
presence of failures are order-independent, and are modelled in
configuration order. -/
def executeProvidersLoop (exec : String → List (String × JValue) → Except CtxError JValue)
    (baseParams : List (String × JValue)) : List Manifest.Provider → ProvExecOutcome
  | [] => ⟨[], [], []⟩
  | cfg :: rest =>
    if cfg.condition ≠ "" ∧ ¬ Builder.evaluateCondition cfg.condition baseParams then
      executeProvidersLoop exec baseParams rest
    else
      let outcome := executeProvidersLoop exec baseParams rest
      match exec cfg.name (providerCallParams cfg baseParams) with
      | .error e =>
        if cfg.optional then outcome
        else ⟨outcome.results, cfg.name :: outcome.failedProviders, e :: outcome.providerErrors⟩
      | .ok data => ⟨upsert outcome.results cfg.name data, outcome.failedProviders, outcome.providerErrors⟩

/-- Builder.executeProviders: the aggregated results map together with
a multiple-providers-failed error when any non-optional provider
failed. -/
def executeProviders (exec : String → List (String × JValue) → Except CtxError JValue)
    (configs : List Manifest.Provider) (baseParams : List (String × JValue)) :
    List (String × JValue) × Option CtxError :=
  let o := executeProvidersLoop exec baseParams configs
  match o.providerErrors with
  | [] => (o.results, none)
  | _ :: _ => (o.results, some (.multipleProvidersFailed o.failedProviders o.providerErrors))

/-- ProviderLoader.createProvider: http providers need a URL and a
parseable timeout (duration parsing is the stdlib oracle pd); other
types are unsupported. -/
def createProvider (pd : String → Option Nat) (cfg : Manifest.Provider) :
    Except CtxError Unit :=
  match cfg.type with
  | "http" =>
    if cfg.url = "" then .error (.invalidProviderConfig cfg.name "URL is required for HTTP provider")
    else if cfg.timeout ≠ "" ∧ (pd cfg.timeout).isNone then
      .error (.invalidProviderConfig cfg.name "invalid timeout format")
    else .ok ()
  | t => .error (.unsupportedProviderType t)

/-- ProviderLoader.LoadFromRouteConfig over the provider configs:
optional providers whose construction fails are skipped; a required
construction failure aborts the load.  (The constructed client's
dispatch is modelled by the exec oracle; NewProviderClient itself is
verified separately.) -/
def LoadFromRouteConfig (pd : String → Option Nat) :
    List Manifest.Provider → Except CtxError Unit
  | [] => .ok ()
  | cfg :: rest =>
    match createProvider pd cfg with
    | .error _ =>
      if cfg.optional then LoadFromRouteConfig pd rest
      else .error (.providerLoadFailed cfg.name)
    | .ok _ => LoadFromRouteConfig pd rest

/-- Builder.Build: initializes the FullContext, loads the providers,
builds the base params, executes the providers in parallel, and stores
whatever backend map they produced.  A provider-execution error is
logged and swallowed: the build still returns the context without an
error ("Log error but don't fail completely - partial context is
OK"). -/
def Builder.Build (pd : String → Option Nat)
    (exec : String → List (String × JValue) → Except CtxError JValue)
    (routeMatch : Option Manifest.RouteMatch) (frontendContext : Option FrontendContext)
    (user : Option User) : Except CtxError FullContext :=
  match routeMatch with
  | none => .error .invalidRouteMatch
  | some rm =>
    match LoadFromRouteConfig pd rm.route.context.providers with
    | .error e => .error (.buildFailed e)
    | .ok _ =>
      let params := Builder.buildProviderParams rm user
      let backendData := (executeProviders exec rm.route.context.providers params).1
      .ok { route := { path := rm.route.pattern, name := rm.route.name,
                       params := rm.params, query := rm.query },
            user := user, frontend := frontendContext, backend := backendData,
            instructions := rm.route.agentInstructions,
            availableTools := rm.route.tools.map fun t => t.name }

/-- A concrete pair of same-named providers for exercising C10. -/
def providerC10a : Provider :=
  { name := "dup", getContext := fun _ => .ok (JValue.str "first") }

/-- The second same-named provider, appearing later in the list. -/
def providerC10b : Provider :=
  { name := "dup", getContext := fun _ => .ok (JValue.str "second") }

/-- The non-optional provider configuration used in the C1 inputs. -/
def providerCfgC1 : Manifest.Provider :=
  { type := "http", name := "A", url := "http://a.example", method := "",
    headers := [], body := none, timeout := "", params := [], condition := "",
    optional := false }

/-- A route whose only provider is providerCfgC1. -/
def routeC1 : Manifest.Route :=
  { pattern := "/p", name := "p", description := "",
    context := ⟨[providerCfgC1]⟩, tools := [], agentInstructions := "",
    safety := ⟨[], 0, false, 0⟩ }

/-- The route match for routeC1. -/
def routeMatchC1 : Manifest.RouteMatch :=
  { route := routeC1, params := [], query := [] }

/-- An execution oracle on which every provider call fails. -/
def failExec : String → List (String × JValue) → Except CtxError JValue :=
  fun n _ => .error (.providerFailed n "boom")

end Ctx

namespace Tools

/-- The tools package error values (tools/errors.go). -/
inductive ToolErr : Type
  | invalidTool (msg : String)
  | unsupportedToolType (toolType : String)
  | toolExecution (toolName : String) (msg : String)
  | toolTimeout (toolName : String)
  | missingParameter (toolName : String) (paramName : String)
  | parameterResolution (toolName : String) (paramName : String) (msg : String)
deriving DecidableEq

/-- HTTPTool env resolution, after the regex for backslash-brace env
dot [^closing-brace]+ closing-brace: each env placeholder with a
nonempty name is replaced by the environment value. -/
def resolveEnvVarsTool (env : String → String) : List Char → List Char
  | [] => []
  | c :: rest =>
    if h : c = '\x7b' ∧ rest.take 4 = ['e', 'n', 'v', '.'] ∧
        (rest.drop 4).takeWhile (fun ch => ch ≠ '\x7d') ≠ [] ∧
        containsSub ['\x7d'] (rest.drop 4) then
      let after := rest.drop 4
      let name := after.takeWhile fun ch => ch ≠ '\x7d'
      (env (String.mk name)).data ++ resolveEnvVarsTool env (after.drop (name.length + 1))
    else
      c :: resolveEnvVarsTool env rest
termination_by s => s.length
decreasing_by
  · simp only [List.length_drop, List.length_cons]
    omega
  · simp only [List.length_cons]
    omega

/-- HTTPTool.resolveTemplate: replaces the user-token placeholder when
present, then env placeholders, then for each parameter key first every
single-brace placeholder and then every double-brace placeholder of
that key (map iteration modelled in list order). -/
def HTTPTool.resolveTemplate (userToken : String) (env : String → String)
    (params : List (String × JValue)) (template : String) : String :=
  let s0 := template.data
  let s1 := if containsSub "\x7buser.token\x7d".data s0 then
      replaceAll "\x7buser.token\x7d".data userToken.data s0
    else s0
  let s2 := resolveEnvVarsTool env s1
  let s3 := params.foldl (fun result kv =>
      let p1 := '\x7b' :: (kv.1.data ++ ['\x7d'])
      let p2 := '\x7b' :: '\x7b' :: (kv.1.data ++ ['\x7d', '\x7d'])
      if containsSub p1 result || containsSub p2 result then
        replaceAll p2 (JValue.toGoString kv.2).data
          (replaceAll p1 (JValue.toGoString kv.2).data result)
      else result)
    s2
  String.mk s3

/-- The path walk of extractFromContext, over the already split and
trimmed segments. -/
def extractGo : List (List Char) → JValue → Except String JValue
  | [], cur => .ok cur
  | part :: rest, cur =>
    let seg := String.mk (trimChars part)
    match cur with
    | .obj m =>
      match alookup m seg with
      | some v => extractGo rest v
      | none => .error ("path segment not found: " ++ seg)
    | _ => .error ("cannot traverse non-map at " ++ seg)

/-- extractFromContext: trim the context path, strip a leading and a
trailing double brace, split on dots, and walk the workflow-context
map. -/
def extractFromContext (contextPath : String)
    (workflowContext : List (String × JValue)) : Except String JValue :=
  let path0 := trimChars contextPath.data
  let path1 := if hasPrefixChars "\x7b\x7b".data path0 then path0.drop 2 else path0
  let path2 := if path1.reverse.take 2 = ['\x7d', '\x7d'] then
      path1.take (path1.length - 2)
    else path1
  let path3 := trimChars path2
  extractGo (path3.splitOn '.') (.obj workflowContext)

/-- One step of HTTPTool.resolveParameters for a single declared
parameter: resolve it into the result map, skip it, or fail. -/
def resolveParamStep (toolName : String) (agentParams : List (String × JValue))
    (workflowContext : List (String × JValue)) (p : Manifest.ToolParameter)
    (result : List (String × JValue)) : Except ToolErr (List (String × JValue)) :=
  if p.source = "agent" then
    match alookup agentParams p.name with
    | some v => .ok (upsert result p.name v)
    | none =>
      if p.required then .error (.missingParameter toolName p.name)
      else
        match p.default with
        | some d => .ok (upsert result p.name d)
        | none => .ok result
  else if p.source = "route" then
    match alookup workflowContext p.name with
    | some v => .ok (upsert result p.name v)
    | none =>
      if p.required then .error (.missingParameter toolName p.name)
      else .ok result
  else if p.source = "context" then
    if p.contextPath = "" then
      .error (.invalidTool ("context_path missing for parameter: " ++ p.name))
    else
      match extractFromContext p.contextPath workflowContext with
      | .error msg =>
        if p.required then .error (.parameterResolution toolName p.name msg)
        else .ok result
      | .ok v => .ok (upsert result p.name v)
  else .ok result

/-- The declared-order loop of HTTPTool.resolveParameters: the first
failing parameter aborts, otherwise each step updates the result
map. -/
def resolveParamsAux (toolName : String) (agentParams : List (String × JValue))
    (workflowContext : List (String × JValue)) :
    List Manifest.ToolParameter → List (String × JValue) →
      Except ToolErr (List (String × JValue))
  | [], result => .ok result
  | p :: rest, result =>
    match resolveParamStep toolName agentParams workflowContext p result with
    | .error e => .error e
    | .ok result2 => resolveParamsAux toolName agentParams workflowContext rest result2

/-- HTTPTool.resolveParameters: iterate the tool's declared parameter
list from an empty result map. -/
def HTTPTool.resolveParameters (toolName : String)
    (parameters : List Manifest.ToolParameter)
    (agentParams : List (String × JValue))
    (workflowContext : List (String × JValue)) :
    Except ToolErr (List (String × JValue)) :=
  resolveParamsAux toolName agentParams workflowContext parameters []

/-- A required agent-sourced parameter for exercising C7. -/
def paramAgentReq : Manifest.ToolParameter :=
  { name := "x", type := "string", description := "", required := true,
    source := "agent", contextPath := "", enum := [], default := none }

/-- An optional agent-sourced parameter with a default. -/
def paramAgentDef : Manifest.ToolParameter :=
  { name := "x", type := "string", description := "", required := false,
    source := "agent", contextPath := "", enum := [], default := some (.str "d") }

/-- A required context-sourced parameter with an unreachable path. -/
def paramCtxReq : Manifest.ToolParameter :=
  { name := "y", type := "string", description := "", required := true,
    source := "context", contextPath := "backend.x", enum := [], default := none }

/-- An optional context-sourced parameter with an unreachable path. -/
def paramCtxOpt : Manifest.ToolParameter :=
  { name := "y", type := "string", description := "", required := false,
    source := "context", contextPath := "backend.x", enum := [], default := none }

end Tools

namespace Llm

/-- Modelled from the spec: the llm package sources are not in the
repository snapshot; per the data model, a tool call carries a function
name and JSON-string arguments. -/
structure ToolFunction where
  name : String
  arguments : String
deriving DecidableEq

/-- Modelled from the spec: a tool call is an id plus its function. -/
structure ToolCall where
  id : String
  function : ToolFunction
deriving DecidableEq

/-- Modelled from the spec: a message has a role (system, user,
assistant or tool), text content, an optional tool-call array, and an
optional tool-call id for tool-role replies. -/
structure Message where
  role : String
  content : String
  toolCalls : List ToolCall
  toolCallId : String
deriving DecidableEq

/-- Modelled from the spec: llm.NewUserMessage. -/
def NewUserMessage (content : String) : Message :=
  { role := "user", content := content, toolCalls := [], toolCallId := "" }

/-- Modelled from the spec: llm.NewSystemMessage. -/
def NewSystemMessage (content : String) : Message :=
  { role := "system", content := content, toolCalls := [], toolCallId := "" }

/-- Modelled from the spec: the LLM client's Chat response carries the
assistant message (token usage is not read by any claim). -/
structure Response where
  message : Message
deriving DecidableEq

end Llm

namespace Memoryx

/-- memoryx.BufferMemory: system message, conversation list, optional
cap. -/
structure BufferMemory where
  systemMessage : Llm.Message
  messages : List Llm.Message
  maxMessages : Nat
deriving DecidableEq

/-- memoryx.NewBufferMemory (maxMessages 0 means unlimited). -/
def NewBufferMemory (systemMessage : Llm.Message) (maxMessages : Nat := 0) :
    BufferMemory :=
  { systemMessage := systemMessage, messages := [], maxMessages := maxMessages }

/-- BufferMemory.Messages: the system message first when its content is
nonempty, then the conversation in insertion order. -/
def BufferMemory.Messages (m : BufferMemory) : List Llm.Message :=
  (if m.systemMessage.content ≠ "" then [m.systemMessage] else []) ++ m.messages

/-- BufferMemory.Add: append, then drop the oldest conversation
messages past the cap. -/
def BufferMemory.Add (m : BufferMemory) (message : Llm.Message) : BufferMemory :=
  let msgs := m.messages ++ [message]
  if m.maxMessages > 0 ∧ msgs.length > m.maxMessages then
    { m with messages := msgs.drop (msgs.length - m.maxMessages) }
  else
    { m with messages := msgs }

/-- BufferMemory.Clear: drop the conversation, keep the system
message. -/
def BufferMemory.Clear (m : BufferMemory) : BufferMemory :=
  { m with messages := [] }

/-- memoryx.SessionMessage, with the serialized tool-call array kept as
the stored string (its JSON decoding is not read by any claim) and the
created-at timestamp as a number. -/
structure SessionMessage where
  id : Int
  sessionId : String
  role : String
  content : String
  toolCalls : String
  toolCallId : String
  createdAt : Nat
deriving DecidableEq

/-- SessionMessage.ToLLMMessage, with the tool-call string left
undecoded. -/
def ToLLMMessage (sm : SessionMessage) : Llm.Message :=
  { role := sm.role, content := sm.content, toolCalls := [],
    toolCallId := sm.toolCallId }

/-- PostgresSessionRepository.ClearMessages: DELETE the session's rows
whose role is not system. -/
def ClearMessages (sessionID : String) (store : List SessionMessage) :
    List SessionMessage :=
  store.filter fun r => ¬ (r.sessionId = sessionID ∧ r.role ≠ "system")

/-- Stable insertion for the ORDER BY created_at ASC model. -/
def insertByCreatedAt (r : SessionMessage) :
    List SessionMessage → List SessionMessage
  | [] => [r]
  | x :: xs =>
    if r.createdAt ≤ x.createdAt then r :: x :: xs else x :: insertByCreatedAt r xs

/-- A stable sort by created_at, modelling the repository's ORDER BY
created_at ASC (ties, which the store leaves unspecified, keep row
order). -/
def sortByCreatedAt : List SessionMessage → List SessionMessage
  | [] => []
  | x :: xs => insertByCreatedAt x (sortByCreatedAt xs)

/-- PostgresSessionRepository.GetMessages: the session's rows ordered
ascending by created_at. -/
def GetMessages (sessionID : String) (store : List SessionMessage) :
    List SessionMessage :=
  sortByCreatedAt (store.filter fun r => r.sessionId = sessionID)

/-- SessionMemory.Messages over a repository state. -/
def SessionMemory.Messages (sessionID : String) (store : List SessionMessage) :
    List Llm.Message :=
  (GetMessages sessionID store).map ToLLMMessage

/-- SessionMemory.Clear over a repository state. -/
def SessionMemory.Clear (sessionID : String) (store : List SessionMessage) :
    List SessionMessage :=
  ClearMessages sessionID store

/-- The seed system row of the C8 scenario. -/
def seedRowC8 : SessionMessage :=
  { id := 1, sessionId := "s", role := "system", content := "seed",
    toolCalls := "", toolCallId := "", createdAt := 0 }

/-- A second system row, as appended by the orchestrator's
updated-context injection into an existing session. -/
def injectedRowC8 : SessionMessage :=
  { id := 2, sessionId := "s", role := "system",
    content := "=== UPDATED CONTEXT FOR CURRENT ROUTE ===",
    toolCalls := "", toolCallId := "", createdAt := 5 }

/-- A user row of the C8 scenario. -/
def userRowC8 : SessionMessage :=
  { id := 3, sessionId := "s", role := "user", content := "hi",
    toolCalls := "", toolCallId := "", createdAt := 6 }

end Memoryx

namespace Agentx

/-- Modelled from the spec: the toolx client exposes the tool list
handed to the LLM (only its nonemptiness steers the agent) and the
Call operation, whose HTTP behaviour is an oracle. -/
structure ToolxClient where
  tools : List String
  call : Llm.ToolCall → Except String Llm.Message

/-- The agentx.Agent configuration read by the loop.  The LLM client is
passed as an oracle, indexed by the position of the call in the run, so
a run is quantified over every sequence of LLM responses. -/
structure Agent where
  maxAutoIterations : Nat
  maxTotalIterations : Nat
  tools : Option ToolxClient

/-- The observable events of a run: an LLM call with its explicit
tool-choice option (none when no override is set) and, for loop calls,
the iteration counter; and a tool invocation. -/
inductive AgentEvent : Type
  | llmCall (toolChoice : Option String) (loopIteration : Option Nat)
  | toolInvoke (name : String)
deriving DecidableEq

/-- The errors the modelled loop can return. -/
inductive AgentErr : Type
  | iterationsExceeded (max : Nat)
  | toolExecution (msg : String)
deriving DecidableEq

/-- The outcome of a run: its result, the final memory contents, and
the event trace. -/
structure RunOutcome where
  result : Except AgentErr String
  memory : List Llm.Message
  trace : List AgentEvent

/-- The result of executing the tool calls of one iteration. -/
structure ToolExecResult where
  events : List AgentEvent
  memory : List Llm.Message
  failed : Option String

/-- The per-iteration tool loop: each tool call in order is invoked and
its reply appended to memory; an execution error aborts the whole
request. -/
def execToolCalls (tc : ToolxClient) :
    List Llm.ToolCall → List Llm.Message → ToolExecResult
  | [], mem => ⟨[], mem, none⟩
  | t :: rest, mem =>
    match tc.call t with
    | .error e => ⟨[.toolInvoke t.function.name], mem, some e⟩
    | .ok msg =>
      let r := execToolCalls tc rest (mem ++ [msg])
      ⟨.toolInvoke t.function.name :: r.events, r.memory, r.failed⟩

/-- Agent.handleToolCallsWithLimit: fail once the iteration counter
reaches the hard ceiling; otherwise execute the tool calls, make the
follow-up LLM call with tool-choice auto before maxAutoIterations and
none from then on (no override when the tool list is empty), and
recurse at iteration+1 while the response still carries tool calls. -/
def handleToolCallsWithLimit (a : Agent) (tc : ToolxClient)
    (llm : Nat → Llm.Response) (toolCalls : List Llm.ToolCall)
    (iteration callIdx : Nat) (mem : List Llm.Message) : RunOutcome :=
  if h : iteration ≥ a.maxTotalIterations then
    ⟨.error (.iterationsExceeded a.maxTotalIterations), mem, []⟩
  else
    let te := execToolCalls tc toolCalls mem
    match te.failed with
    | some e => ⟨.error (.toolExecution e), te.memory, te.events⟩
    | none =>
      let choice : Option String :=
        if tc.tools.isEmpty then none
        else if iteration < a.maxAutoIterations then some "auto" else some "none"
      let resp := llm callIdx
      let mem2 := te.memory ++ [resp.message]
      let ev := AgentEvent.llmCall choice (some iteration)
      if resp.message.toolCalls.isEmpty then
        ⟨.ok resp.message.content, mem2, te.events ++ [ev]⟩
      else
        let next := handleToolCallsWithLimit a tc llm resp.message.toolCalls
          (iteration + 1) (callIdx + 1) mem2
        ⟨next.result, next.memory, te.events ++ [ev] ++ next.trace⟩
termination_by a.maxTotalIterations - iteration
decreasing_by omega

/-- Agent.Run: append the user message, make the initial LLM call with
no tool-choice override, append the response, and enter the tool-call
state machine at iteration 0 when the response carries tool calls and
tools are configured. -/
def Agent.Run (a : Agent) (llm : Nat → Llm.Response) (userInput : String)
    (mem0 : List Llm.Message) : RunOutcome :=
  let mem1 := mem0 ++ [Llm.NewUserMessage userInput]
  let resp := llm 0
  let mem2 := mem1 ++ [resp.message]
  let ev := AgentEvent.llmCall none none
  match a.tools with
  | some tc =>
    if resp.message.toolCalls.isEmpty then
      ⟨.ok resp.message.content, mem2, [ev]⟩
    else
      let next := handleToolCallsWithLimit a tc llm resp.message.toolCalls 0 1 mem2
      ⟨next.result, next.memory, ev :: next.trace⟩
  | none => ⟨.ok resp.message.content, mem2, [ev]⟩

/-- Whether an event is an LLM call. -/
def isLLMCallEvent : AgentEvent → Bool
  | .llmCall _ _ => true
  | .toolInvoke _ => false

/-- Whether an event is a tool invocation. -/
def isToolInvokeEvent : AgentEvent → Bool
  | .llmCall _ _ => false
  | .toolInvoke _ => true

/-- The number of LLM calls in a trace. -/
def countLLMCalls (tr : List AgentEvent) : Nat :=
  tr.countP isLLMCallEvent

/-- The number of tool invocations in a trace. -/
def countToolInvocations (tr : List AgentEvent) : Nat :=
  tr.countP isToolInvokeEvent

/-- A response that always carries exactly one tool call. -/
def llmAlwaysTool : Nat → Llm.Response :=
  fun _ => ⟨{ role := "assistant", content := "using tool",
              toolCalls := [⟨"1", ⟨"echo", "\x7b\x7d"⟩⟩], toolCallId := "" }⟩

/-- A tool client whose single tool always succeeds. -/
def echoClient : ToolxClient :=
  { tools := ["echo"],
    call := fun t => .ok { role := "tool", content := "ok", toolCalls := [],
                           toolCallId := t.id } }

end Agentx

end Ams

namespace Ams

theorem alookup_upsert_self {α : Type} (l : List (String × α)) (k : String) (v : α) :
    alookup (upsert l k v) k = some v := by
  induction l with
  | nil => simp [upsert, alookup]
  | cons hd tl ih =>
    obtain ⟨k0, v0⟩ := hd
    by_cases h : k0 = k
    · simp [upsert, h, alookup]
    · simp [upsert, h, alookup, ih]

theorem alookup_upsert_ne {α : Type} (l : List (String × α)) (k k1 : String) (v : α)
    (h : k ≠ k1) : alookup (upsert l k v) k1 = alookup l k1 := by
  induction l with
  | nil => simp [upsert, alookup, h]
  | cons hd tl ih =>
    obtain ⟨k0, v0⟩ := hd
    by_cases h0 : k0 = k
    · subst h0
      simp [upsert, alookup, h]
    · simp [upsert, h0, alookup, ih]

theorem upsert_mem_keys {α : Type} (tl : List (String × α)) (k : String) (v : α) (k0 : String)
    (hmem : k0 ∈ (upsert tl k v).map Prod.fst) :
    k0 = k ∨ k0 ∈ tl.map Prod.fst := by
  induction tl with
  | nil => simpa [upsert] using hmem
  | cons hd2 tl2 ih2 =>
    obtain ⟨k2, v2⟩ := hd2
    by_cases h2 : k2 = k
    · simp only [upsert, h2, if_pos] at hmem
      simp only [List.map_cons, List.mem_cons] at hmem ⊢
      tauto
    · simp only [upsert, h2, if_neg, not_false_iff, List.map_cons, List.mem_cons] at hmem ⊢
      rcases hmem with h3 | h3
      · tauto
      · rcases ih2 h3 with h4 | h4 <;> tauto

theorem upsert_keys_nodup {α : Type} (l : List (String × α)) (k : String) (v : α)
    (h : (l.map Prod.fst).Nodup) : ((upsert l k v).map Prod.fst).Nodup := by
  induction l with
  | nil => simp [upsert]
  | cons hd tl ih =>
    obtain ⟨k0, v0⟩ := hd
    simp only [List.map_cons, List.nodup_cons] at h
    by_cases h0 : k0 = k
    · simp only [upsert, h0, if_pos, List.map_cons, List.nodup_cons]
      exact ⟨by simpa [h0] using h.1, h.2⟩
    · simp only [upsert, h0, if_neg, not_false_iff, List.map_cons, List.nodup_cons]
      constructor
      · intro hmem
        rcases upsert_mem_keys tl k v k0 hmem with h1 | h1
        · exact h0 h1
        · exact h.1 h1
      · exact ih h.2

namespace Manifest

/-! ## Matcher lemmas -/
theorem capGo_some (ts : List Tok) (s : List Char) (k : Nat) (caps : List String)
    (h : capGo ts s k = some caps) :
    ∃ v caps2 s2, caps = v :: caps2 ∧ matchToks ts s2 = some caps2 := by
  induction k with
  | zero => simp [capGo] at h
  | succ k ih =>
    rw [capGo] at h
    cases hm : matchToks ts (s.drop (k + 1)) with
    | some caps2 =>
      rw [hm] at h
      exact ⟨String.mk (s.take (k + 1)), caps2, s.drop (k + 1), by simpa using h.symm, hm⟩
    | none =>
      rw [hm] at h
      exact ih h

/-- A successful match produces one captured group per capture token. -/
theorem matchToks_length (ts : List Tok) : ∀ (s : List Char) (caps : List String),
    matchToks ts s = some caps → caps.length = (capNames ts).length := by
  induction ts with
  | nil =>
    intro s caps h
    rw [matchToks] at h
    by_cases hs : s.isEmpty <;> simp [hs] at h
    simp [← h, capNames]
  | cons t ts ih =>
    intro s caps h
    cases t with
    | lit c =>
      cases s with
      | nil => rw [matchToks] at h; simp at h
      | cons x xs =>
        rw [matchToks] at h
        by_cases hx : x = c
        · simp only [hx, if_pos] at h
          simpa [capNames] using ih xs caps h
        · simp [hx] at h
    | cap n =>
      rw [matchToks] at h
      obtain ⟨v, caps2, s2, hcaps, hm⟩ := capGo_some ts s _ caps h
      subst hcaps
      simp [capNames, List.filterMap_cons]
      exact ih s2 caps2 hm

/-- findMatch returns none exactly when no compiled entry matches. -/
theorem findMatch_none_iff (es : List RouteEntry) (p : List Char) :
    findMatch es p = none ↔
      ∀ i (hi : i < es.length), matchToks (es.get ⟨i, hi⟩).toks p = none := by
  induction es with
  | nil => simp [findMatch]
  | cons e rest ih =>
    constructor
    · intro h i hi
      rw [findMatch] at h
      cases hm : matchToks e.toks p with
      | some caps => rw [hm] at h; simp at h
      | none =>
        rw [hm] at h
        match i with
        | 0 => exact hm
        | Nat.succ j =>
          exact (ih.mp h) j (by simpa using hi)
    · intro h
      have h0 := h 0 (by simp)
      simp only [List.get] at h0
      rw [findMatch, h0]
      exact ih.mpr fun j hj => by
        have := h (j + 1) (by simpa using hj)
        simpa using this

/-- findMatch returns exactly the first declared entry that matches,
with its captured groups bound positionally. -/
theorem findMatch_some_iff (es : List RouteEntry) (p : List Char) (rm : RouteMatch) :
    findMatch es p = some rm ↔
      ∃ i, ∃ hi : i < es.length, ∃ caps,
        matchToks (es.get ⟨i, hi⟩).toks p = some caps ∧
        (∀ j (hj : j < i), matchToks (es.get ⟨j, Nat.lt_trans hj hi⟩).toks p = none) ∧
        rm = { route := (es.get ⟨i, hi⟩).route,
               params := bindParams (es.get ⟨i, hi⟩).params caps,
               query := [] } := by
  induction es with
  | nil => simp [findMatch]
  | cons e rest ih =>
    rw [findMatch]
    cases hm : matchToks e.toks p with
    | some caps =>
      constructor
      · intro h
        have h2 : some (RouteMatch.mk e.route (bindParams e.params caps) []) = some rm := h
        refine ⟨0, Nat.succ_pos _, caps, hm, ?_, (Option.some.inj h2).symm⟩
        intro j hj
        exact absurd hj (Nat.not_lt_zero j)
      · rintro ⟨i, hi, caps2, hm2, hfirst, hrm⟩
        cases i with
        | zero =>
          have hm3 : matchToks e.toks p = some caps2 := hm2
          rw [hm] at hm3
          cases Option.some.inj hm3
          exact congrArg some hrm.symm
        | succ j =>
          have h0 : matchToks e.toks p = none := hfirst 0 (Nat.succ_pos j)
          rw [hm] at h0
          exact absurd h0 (by simp)
    | none =>
      constructor
      · intro h
        have h4 : findMatch rest p = some rm := h
        obtain ⟨i, hi, caps, h1, h2, h3⟩ := ih.mp h4
        refine ⟨i + 1, Nat.succ_lt_succ hi, caps, h1, ?_, h3⟩
        intro j hj
        cases j with
        | zero => exact hm
        | succ j2 => exact h2 j2 (Nat.lt_of_succ_lt_succ hj)
      · rintro ⟨i, hi, caps, h1, h2, h3⟩
        cases i with
        | zero =>
          have h5 : matchToks e.toks p = some caps := h1
          rw [hm] at h5
          exact absurd h5 (by simp)
        | succ k =>
          show findMatch rest p = some rm
          refine ih.mpr ⟨k, Nat.lt_of_succ_lt_succ hi, caps, h1, ?_, h3⟩
          intro j hj
          exact h2 (j + 1) (Nat.succ_lt_succ hj)

/-- Folding Go map assignments over a pair list: the final lookup sees
the last assignment of the key, else the initial map. -/
theorem alookup_foldl_upsert (pairs : List (String × String))
    (init : List (String × String)) (key : String) :
    alookup (pairs.foldl (fun m kv => upsert m kv.1 kv.2) init) key =
      match (pairs.filter fun kv => kv.1 = key).getLast? with
      | some kv => some kv.2
      | none => alookup init key := by
  induction pairs generalizing init with
  | nil => simp
  | cons kv pairs ih =>
    simp only [List.foldl_cons]
    rw [ih]
    by_cases hk : kv.1 = key
    · cases hfp : pairs.filter (fun kv2 => kv2.1 = key) with
      | nil =>
        have hcons : (kv :: pairs).filter (fun kv2 => kv2.1 = key) = [kv] := by
          simp [List.filter_cons, hk, hfp]
        rw [hcons]
        simp only [List.getLast?_nil, List.getLast?_singleton]
        rw [← hk]
        exact alookup_upsert_self init kv.1 kv.2
      | cons y ys =>
        have hcons : (kv :: pairs).filter (fun kv2 => kv2.1 = key) = kv :: y :: ys := by
          simp [List.filter_cons, hk, hfp]
        rw [hcons, List.getLast?_cons_cons]
        cases hgl : (y :: ys).getLast? with
        | none =>
          rw [List.getLast?_eq_none_iff] at hgl
          exact absurd hgl (by simp)
        | some z => simp [hgl]
    · have hfilter : (kv :: pairs).filter (fun kv2 => kv2.1 = key) =
          pairs.filter (fun kv2 => kv2.1 = key) := by
        simp [List.filter_cons, hk]
      rw [hfilter]
      cases hfp : pairs.filter (fun kv2 => kv2.1 = key) with
      | nil =>
        simp only [List.getLast?_nil]
        exact alookup_upsert_ne init kv.1 key kv.2 hk
      | cons y ys =>
        cases hgl : (y :: ys).getLast? with
        | none =>
          rw [List.getLast?_eq_none_iff] at hgl
          exact absurd hgl (by simp)
        | some z => simp [hgl]

/-- Positional parameter binding resolves a name to the capture of its
last matching (name, capture) pair. -/
theorem bindParams_lookup (params caps : List String) (name : String) :
    alookup (bindParams params caps) name =
      ((params.zip caps).filter fun kv => kv.1 = name).getLast?.map Prod.snd := by
  rw [bindParams, alookup_foldl_upsert]
  cases hfp : (params.zip caps).filter (fun kv => kv.1 = name) with
  | nil => simp [alookup]
  | cons y ys =>
    cases hgl : (y :: ys).getLast? with
    | none =>
      rw [List.getLast?_eq_none_iff] at hgl
      exact absurd hgl (by simp)
    | some z => simp [hgl]

/-- If index k holds the last occurrence of a key in a pair list, the
filter of that key ends at the pair at k. -/
theorem filter_getLast_of_lastIdx (l : List (String × String)) (name : String) :
    ∀ (k : Nat) (hk : k < l.length),
    (l.get ⟨k, hk⟩).1 = name →
    (∀ j (hj : j < l.length), k < j → (l.get ⟨j, hj⟩).1 ≠ name) →
    (l.filter fun kv => kv.1 = name).getLast? = some (l.get ⟨k, hk⟩) := by
  induction l with
  | nil => intro k hk; exact absurd hk (by simp)
  | cons x xs ih =>
    intro k hk hname hlast
    cases k with
    | zero =>
      have hx : x.1 = name := hname
      have hrest : xs.filter (fun kv => kv.1 = name) = [] := by
        rw [List.filter_eq_nil_iff]
        intro y hy
        obtain ⟨n, hyn⟩ := List.mem_iff_get.mp hy
        have hne : ((x :: xs).get ⟨n.val + 1, Nat.succ_lt_succ n.isLt⟩).1 ≠ name :=
          hlast (n.val + 1) (Nat.succ_lt_succ n.isLt) (Nat.succ_pos n.val)
        have hne2 : (xs.get n).1 ≠ name := hne
        rw [hyn] at hne2
        simpa using hne2
      show ((x :: xs).filter fun kv => kv.1 = name).getLast? = some x
      have hcons : (x :: xs).filter (fun kv => kv.1 = name) = [x] := by
        simp [List.filter_cons, hx, hrest]
      rw [hcons, List.getLast?_singleton]
    | succ k2 =>
      have hk2 : k2 < xs.length := Nat.lt_of_succ_lt_succ hk
      have hname2 : (xs.get ⟨k2, hk2⟩).1 = name := hname
      have hlast2 : ∀ j (hj : j < xs.length), k2 < j → (xs.get ⟨j, hj⟩).1 ≠ name := by
        intro j hj hkj
        exact hlast (j + 1) (Nat.succ_lt_succ hj) (Nat.succ_lt_succ hkj)
      have hxs := ih k2 hk2 hname2 hlast2
      show ((x :: xs).filter fun kv => kv.1 = name).getLast? = some (xs.get ⟨k2, hk2⟩)
      by_cases hx : x.1 = name
      · cases hfx : xs.filter (fun kv => kv.1 = name) with
        | nil => rw [hfx] at hxs; simp at hxs
        | cons y ys =>
          have hcons : (x :: xs).filter (fun kv => kv.1 = name) = x :: y :: ys := by
            simp [List.filter_cons, hx, hfx]
          rw [hcons, List.getLast?_cons_cons, ← hfx, hxs]
      · have hcons : (x :: xs).filter (fun kv => kv.1 = name) =
            xs.filter (fun kv => kv.1 = name) := by
          simp [List.filter_cons, hx]
        rw [hcons, hxs]

/-! ## Claims C3 and C9 -/
/-- Claim C3: for every loaded registry, every compiled route R and
every path P, Match(P) returns R iff R.pattern is the first declared
pattern (declaration order is the tie-break) whose compiled regex,
built by replacing each :identifier with a one-segment capture group
and anchoring with start and end anchors, matches P; and the captured
params bind captured groups to parameter names positionally in the
order the parameter names appear in the pattern (as last-assignment
association-list semantics).  The hypothesis restricts to patterns
whose literal characters are not regex metacharacters, which is where
the token-list matcher models the compiled regex exactly. -/
theorem c3_match_first_declared_pattern (m : Manifest) (p : String)
    (hplain : ∀ r ∈ m.routes, plainPattern r.pattern = true) :
    (∀ i (hi : i < m.routes.length) caps,
        (∀ j (hj : j < i),
          matchToks (compileRoute (m.routes.get ⟨j, Nat.lt_trans hj hi⟩)).toks p.data = none) →
        matchToks (compileRoute (m.routes.get ⟨i, hi⟩)).toks p.data = some caps →
        (Registry.Load m).Match p = Except.ok
          { route := m.routes.get ⟨i, hi⟩,
            params := bindParams (compileRoute (m.routes.get ⟨i, hi⟩)).params caps,
            query := [] }) ∧
    (∀ rm, (Registry.Load m).Match p = Except.ok rm →
        (∃ i, ∃ hi : i < m.routes.length, ∃ caps,
            matchToks (compileRoute (m.routes.get ⟨i, hi⟩)).toks p.data = some caps ∧
            (∀ j (hj : j < i),
              matchToks (compileRoute (m.routes.get ⟨j, Nat.lt_trans hj hi⟩)).toks p.data = none) ∧
            rm = { route := m.routes.get ⟨i, hi⟩,
                   params := bindParams (compileRoute (m.routes.get ⟨i, hi⟩)).params caps,
                   query := [] }) ∨
        ((∀ i (hi : i < m.routes.length),
            matchToks (compileRoute (m.routes.get ⟨i, hi⟩)).toks p.data = none) ∧
         ∃ fb, m.fallback = some fb ∧ rm = { route := fb, params := [], query := [] })) ∧
    (∀ (names caps : List String) (key : String),
        alookup (bindParams names caps) key =
          ((names.zip caps).filter fun kv => kv.1 = key).getLast?.map Prod.snd) := by
  have hget : ∀ i (hi : i < m.routes.length),
      (m.routes.map compileRoute).get ⟨i, by simpa using hi⟩ =
        compileRoute (m.routes.get ⟨i, hi⟩) := by
    intro i hi
    exact List.get_map compileRoute
  refine ⟨?_, ?_, fun names caps key => bindParams_lookup names caps key⟩
  · intro i hi caps hfirst hmatch
    have hi2 : i < (m.routes.map compileRoute).length := by simpa using hi
    have hfm : findMatch (m.routes.map compileRoute) p.data = some
        { route := m.routes.get ⟨i, hi⟩,
          params := bindParams (compileRoute (m.routes.get ⟨i, hi⟩)).params caps,
          query := [] } := by
      rw [findMatch_some_iff]
      refine ⟨i, hi2, caps, ?_, ?_, ?_⟩
      · rw [hget i hi]
        exact hmatch
      · intro j hj
        rw [hget j (Nat.lt_trans hj hi)]
        exact hfirst j hj
      · rw [hget i hi]
        rfl
    simp [Registry.Match, Registry.Load, hfm]
  · intro rm hok
    cases hfm : findMatch (m.routes.map compileRoute) p.data with
    | some rm2 =>
      have hok2 : (Registry.Load m).Match p = Except.ok rm2 := by
        simp [Registry.Match, Registry.Load, hfm]
      rw [hok2] at hok
      cases hok
      left
      obtain ⟨i, hi2, caps, h1, h2, h3⟩ := (findMatch_some_iff _ _ _).mp hfm
      have hi : i < m.routes.length := by simpa using hi2
      refine ⟨i, hi, caps, ?_, ?_, ?_⟩
      · rw [← hget i hi]
        exact h1
      · intro j hj
        rw [← hget j (Nat.lt_trans hj hi)]
        exact h2 j hj
      · have h3b := h3
        rw [hget i hi] at h3b
        exact h3b
    | none =>
      right
      constructor
      · intro i hi
        have := (findMatch_none_iff _ _).mp hfm i (by simpa using hi)
        rw [hget i hi] at this
        exact this
      · cases hfb : m.fallback with
        | none =>
          exfalso
          have herr : (Registry.Load m).Match p = Except.error (MatchErr.routeNotFound p) := by
            simp [Registry.Match, Registry.Load, hfm, hfb]
          rw [herr] at hok
          exact Except.noConfusion hok
        | some fb =>
          refine ⟨fb, rfl, ?_⟩
          have hok2 : (Registry.Load m).Match p =
              Except.ok { route := fb, params := [], query := [] } := by
            simp [Registry.Match, Registry.Load, hfm, hfb]
          rw [hok2] at hok
          exact (Except.ok.inj hok).symm

theorem c3_match_first_declared_pattern_witness :
    (∀ r ∈ sampleManifestC3.routes, plainPattern r.pattern = true) ∧
    (Registry.Load sampleManifestC3).Match "/products/42" = Except.ok
      { route := sampleRouteC3, params := [("id", "42")], query := [] } := by
  have hplain : ∀ r ∈ sampleManifestC3.routes, plainPattern r.pattern = true := by
    intro r hr
    simp only [sampleManifestC3, List.mem_singleton] at hr
    subst hr
    simp [plainPattern, sampleRouteC3, tokenize, isWordChar, isRegexMeta]
  refine ⟨hplain, ?_⟩
  have happ := (c3_match_first_declared_pattern sampleManifestC3 "/products/42" hplain).1
    0 (by simp [sampleManifestC3]) ["42"]
    (fun j hj => absurd hj (Nat.not_lt_zero j))
    (by simp [sampleManifestC3, sampleRouteC3, compileRoute, tokenize, isWordChar,
      matchToks, capGo, List.takeWhile])
  simpa [sampleManifestC3, sampleRouteC3, compileRoute, tokenize, isWordChar,
    capNames, bindParams, upsert] using happ

/-- Claim C9: a route pattern containing the same :name parameter
segment more than once compiles, and on a matching path the binding for
that name is the capture of its last occurrence in the pattern. -/
theorem c9_duplicate_param_last_occurrence_wins (r : Route) (path : String)
    (caps : List String) (name : String) (i k : Nat)
    (hplain : plainPattern r.pattern = true)
    (hmatch : matchToks (compileRoute r).toks path.data = some caps)
    (hik : i < k) (hk : k < (compileRoute r).params.length)
    (hi : (compileRoute r).params.get ⟨i, Nat.lt_trans hik hk⟩ = name)
    (hkname : (compileRoute r).params.get ⟨k, hk⟩ = name)
    (hlast : ∀ j (hj : j < (compileRoute r).params.length),
      k < j → (compileRoute r).params.get ⟨j, hj⟩ ≠ name) :
    alookup (bindParams (compileRoute r).params caps) name = caps.get? k := by
  have hlen : caps.length = (compileRoute r).params.length := by
    have := matchToks_length (compileRoute r).toks path.data caps hmatch
    simpa [compileRoute] using this
  have hzlen : ((compileRoute r).params.zip caps).length = (compileRoute r).params.length := by
    simp [List.length_zip, hlen]
  have hkz : k < ((compileRoute r).params.zip caps).length := by
    rw [hzlen]; exact hk
  have hkc : k < caps.length := by rw [hlen]; exact hk
  have hzget : ((compileRoute r).params.zip caps).get ⟨k, hkz⟩ =
      ((compileRoute r).params.get ⟨k, hk⟩, caps.get ⟨k, hkc⟩) :=
    List.get_zip
  have hname2 : (((compileRoute r).params.zip caps).get ⟨k, hkz⟩).1 = name := by
    rw [hzget]; exact hkname
  have hlast2 : ∀ j (hj : j < ((compileRoute r).params.zip caps).length),
      k < j → (((compileRoute r).params.zip caps).get ⟨j, hj⟩).1 ≠ name := by
    intro j hj hkj
    have hjp : j < (compileRoute r).params.length := by rw [← hzlen]; exact hj
    have hjc : j < caps.length := by rw [hlen]; exact hjp
    have : ((compileRoute r).params.zip caps).get ⟨j, hj⟩ =
        ((compileRoute r).params.get ⟨j, hjp⟩, caps.get ⟨j, hjc⟩) := List.get_zip
    rw [this]
    exact hlast j hjp hkj
  have hgl := filter_getLast_of_lastIdx ((compileRoute r).params.zip caps) name k hkz
    hname2 hlast2
  rw [bindParams_lookup, hgl, hzget]
  simp [List.get?_eq_get hkc]

theorem c9_duplicate_param_last_occurrence_wins_witness :
    plainPattern sampleRouteC9.pattern = true ∧
    matchToks (compileRoute sampleRouteC9).toks "/a/1/b/2".data = some ["1", "2"] ∧
    alookup (bindParams (compileRoute sampleRouteC9).params ["1", "2"]) "id" =
      some "2" := by
  have hplain : plainPattern sampleRouteC9.pattern = true := by
    simp [plainPattern, sampleRouteC9, tokenize, isWordChar, isRegexMeta]
  have hmatch : matchToks (compileRoute sampleRouteC9).toks "/a/1/b/2".data =
      some ["1", "2"] := by
    simp [sampleRouteC9, compileRoute, tokenize, isWordChar, matchToks, capGo,
      List.takeWhile]
  have hparams : (compileRoute sampleRouteC9).params = ["id", "id"] := by
    simp [sampleRouteC9, compileRoute, tokenize, isWordChar, capNames]
  refine ⟨hplain, hmatch, ?_⟩
  have happ := c9_duplicate_param_last_occurrence_wins sampleRouteC9 "/a/1/b/2"
    ["1", "2"] "id" 0 1 hplain hmatch (by omega) (by rw [hparams]; decide)
    (by simp [hparams]) (by simp [hparams])
    (by
      intro j hj hkj
      exfalso
      have hj2 : j < 2 := by
        have hj3 := hj
        rw [hparams] at hj3
        simpa using hj3
      omega)
  rw [happ]
  rfl

/-- The accumulated error list only grows along the route loop. -/
theorem validateRoutesLoop_acc_mem (routes : List Route) :
    ∀ (seen : List String) (acc : List ValidationError) (e : ValidationError),
    e ∈ acc → e ∈ validateRoutesLoop routes seen acc := by
  induction routes with
  | nil => intro seen acc e he; simpa [validateRoutesLoop] using he
  | cons r rest ih =>
    intro seen acc e he
    rw [validateRoutesLoop]
    apply ih
    cases hv : validateRoute r <;>
      cases hc : compileRoutePattern r <;>
        by_cases hs : r.name ∈ seen <;>
          simp [hv, hc, hs, he]

/-- Every violating route contributes its first violation to the
accumulated list, whatever the seen-set and accumulator. -/
theorem validateRoutesLoop_mem (routes : List Route) :
    ∀ (seen : List String) (acc : List ValidationError) (r : Route) (e : ValidationError),
    r ∈ routes → validateRoute r = some e →
    e ∈ validateRoutesLoop routes seen acc := by
  induction routes with
  | nil => intro seen acc r e hr; exact absurd hr (by simp)
  | cons r0 rest ih =>
    intro seen acc r e hr hv
    rw [validateRoutesLoop]
    rcases List.mem_cons.mp hr with h | h
    · subst h
      apply validateRoutesLoop_acc_mem
      rw [hv]
      cases hc : compileRoutePattern r <;>
        by_cases hs : r.name ∈ seen <;>
          simp [hc, hs]
    · exact ih _ _ r e h hv

/-- Claim C6 counterexample: a manifest with an empty version and no
routes violates two validation rules, yet ValidateManifest returns the
missing-version error alone, and the missing-routes violation is not
surfaced. -/
theorem c6_counterexample :
    (Manifest.mk "" [] none).version = "" ∧
    (Manifest.mk "" [] none).routes = [] ∧
    ValidateManifest (Manifest.mk "" [] none) = some ValidationError.missingVersion ∧
    ValidationError.missingRoutes ∉ surfaced ValidationError.missingVersion := by
  refine ⟨rfl, rfl, rfl, ?_⟩
  simp [surfaced]

/-- Claim C6 as amended: an empty version or an empty route list
short-circuits and is reported alone; otherwise the loader accumulates
per-route violations (one per route: the first of pattern, name,
providers), and every violating route's error is surfaced together in
the single returned multiple-validation-errors value. -/
theorem c6_validation_accumulates_route_errors (m : Manifest)
    (hv : m.version ≠ "") (hr : m.routes ≠ []) :
    ∀ r ∈ m.routes, ∀ e, validateRoute r = some e →
    ∃ es, ValidateManifest m = some (ValidationError.multipleValidationErrors es) ∧ e ∈ es := by
  intro r hrm e he
  have hmem : e ∈ validateRoutesLoop m.routes [] [] :=
    validateRoutesLoop_mem m.routes [] [] r e hrm he
  have hmem2 : e ∈ fallbackErrors m.fallback (validateRoutesLoop m.routes [] []) := by
    cases hfb : m.fallback with
    | none => simpa [fallbackErrors] using hmem
    | some fb => cases hvf : validateRoute fb <;> simp [fallbackErrors, hvf, hmem]
  rw [ValidateManifest, if_neg hv, if_neg (by simp [List.length_eq_zero, hr])]
  cases hfe : fallbackErrors m.fallback (validateRoutesLoop m.routes [] []) with
  | nil =>
    rw [hfe] at hmem2
    exact absurd hmem2 (by simp)
  | cons e0 es0 =>
    rw [hfe] at hmem2
    exact ⟨e0 :: es0, rfl, hmem2⟩

theorem c6_validation_accumulates_route_errors_witness :
    sampleManifestC6.version ≠ "" ∧ sampleManifestC6.routes ≠ [] ∧
    (∃ es, ValidateManifest sampleManifestC6 =
        some (ValidationError.multipleValidationErrors es) ∧
      ValidationError.missingRoutePattern "r1" ∈ es) ∧
    (∃ es, ValidateManifest sampleManifestC6 =
        some (ValidationError.multipleValidationErrors es) ∧
      ValidationError.missingRouteName "/b" ∈ es) := by
  refine ⟨by simp [sampleManifestC6], by simp [sampleManifestC6], ?_, ?_⟩
  · exact c6_validation_accumulates_route_errors sampleManifestC6
      (by simp [sampleManifestC6]) (by simp [sampleManifestC6])
      (sampleManifestC6.routes.get ⟨0, by simp [sampleManifestC6]⟩)
      (List.get_mem _ _ _)
      (ValidationError.missingRoutePattern "r1") rfl
  · exact c6_validation_accumulates_route_errors sampleManifestC6
      (by simp [sampleManifestC6]) (by simp [sampleManifestC6])
      (sampleManifestC6.routes.get ⟨1, by simp [sampleManifestC6]⟩)
      (List.get_mem _ _ _)
      (ValidationError.missingRouteName "/b") rfl

end Manifest

/-! ## Claims C10 and C1 -/
/-- Folding keyed insertions over any item list: the final lookup sees
the last item with the key, else the initial map. -/
theorem alookup_foldl_upsert_by {α β : Type} (f : β → String) (g : β → α)
    (items : List β) (init : List (String × α)) (key : String) :
    alookup (items.foldl (fun m x => upsert m (f x) (g x)) init) key =
      match (items.filter fun x => f x = key).getLast? with
      | some x => some (g x)
      | none => alookup init key := by
  induction items generalizing init with
  | nil => simp
  | cons x items ih =>
    simp only [List.foldl_cons]
    rw [ih]
    by_cases hk : f x = key
    · cases hfp : items.filter (fun x2 => f x2 = key) with
      | nil =>
        have hcons : (x :: items).filter (fun x2 => f x2 = key) = [x] := by
          simp [List.filter_cons, hk, hfp]
        rw [hcons]
        simp only [List.getLast?_nil, List.getLast?_singleton]
        rw [← hk]
        exact alookup_upsert_self init (f x) (g x)
      | cons y ys =>
        have hcons : (x :: items).filter (fun x2 => f x2 = key) = x :: y :: ys := by
          simp [List.filter_cons, hk, hfp]
        rw [hcons, List.getLast?_cons_cons]
        cases hgl : (y :: ys).getLast? with
        | none =>
          rw [List.getLast?_eq_none_iff] at hgl
          exact absurd hgl (by simp)
        | some z => simp [hgl]
    · have hfilter : (x :: items).filter (fun x2 => f x2 = key) =
          items.filter (fun x2 => f x2 = key) := by
        simp [List.filter_cons, hk]
      rw [hfilter]
      cases hfp : items.filter (fun x2 => f x2 = key) with
      | nil =>
        simp only [List.getLast?_nil]
        exact alookup_upsert_ne init (f x) key (g x) hk
      | cons y ys =>
        cases hgl : (y :: ys).getLast? with
        | none =>
          rw [List.getLast?_eq_none_iff] at hgl
          exact absurd hgl (by simp)
        | some z => simp [hgl]

/-- Folding keyed insertions preserves distinctness of the keys. -/
theorem foldl_upsert_keys_nodup {α β : Type} (f : β → String) (g : β → α)
    (items : List β) : ∀ (init : List (String × α)),
    ((init.map Prod.fst).Nodup) →
    (((items.foldl (fun m x => upsert m (f x) (g x)) init).map Prod.fst).Nodup) := by
  induction items with
  | nil => intro init h; simpa using h
  | cons x items ih =>
    intro init h
    simp only [List.foldl_cons]
    exact ih _ (upsert_keys_nodup init (f x) (g x) h)

namespace Ctx

/-- Claim C10: building a provider client from a list with duplicated
names retains only the last provider of each name; Get dispatches to
it; and both the client map and the backend results map of the
provider fan-out hold at most one entry per name (their key lists are
duplicate-free). -/
theorem c10_duplicate_provider_names_last_wins :
    (∀ (ps : List Provider) (n : String),
        alookup (NewProviderClient ps).providers n =
          (ps.filter fun p => p.name = n).getLast?) ∧
    (∀ (ps : List Provider) (n : String) (params : List (String × JValue)) (p : Provider),
        (ps.filter fun p2 => p2.name = n).getLast? = some p →
        (NewProviderClient ps).Get n params = p.getContext params) ∧
    (∀ ps : List Provider, ((NewProviderClient ps).providers.map Prod.fst).Nodup) ∧
    (∀ (exec : String → List (String × JValue) → Except CtxError JValue)
        (configs : List Manifest.Provider) (baseParams : List (String × JValue)),
        (((executeProvidersLoop exec baseParams configs).results).map Prod.fst).Nodup) := by
  have hlookup : ∀ (ps : List Provider) (n : String),
      alookup (NewProviderClient ps).providers n =
        (ps.filter fun p => p.name = n).getLast? := by
    intro ps n
    have h := alookup_foldl_upsert_by Provider.name (fun p => p) ps [] n
    cases hgl : (ps.filter fun p => p.name = n).getLast? with
    | none =>
      rw [hgl] at h
      simpa [alookup] using h
    | some p =>
      rw [hgl] at h
      exact h
  refine ⟨hlookup, ?_, ?_, ?_⟩
  · intro ps n params p hp
    rw [ProviderClient.Get, hlookup, hp]
  · intro ps
    exact foldl_upsert_keys_nodup Provider.name id ps [] (by simp)
  · intro exec configs baseParams
    induction configs with
    | nil => simp [executeProvidersLoop]
    | cons cfg rest ih =>
      rw [executeProvidersLoop]
      by_cases hcond : cfg.condition ≠ "" ∧
          ¬ Builder.evaluateCondition cfg.condition baseParams
      · simpa [hcond] using ih
      · simp only [hcond, if_neg, not_false_iff]
        cases hx : exec cfg.name (providerCallParams cfg baseParams) with
        | error e =>
          by_cases hopt : cfg.optional <;> simp [hopt, ih]
        | ok data =>
          simpa using upsert_keys_nodup _ cfg.name data ih

theorem c10_duplicate_provider_names_last_wins_witness :
    ([providerC10a, providerC10b].filter fun p2 => p2.name = "dup").getLast? =
      some providerC10b ∧
    (NewProviderClient [providerC10a, providerC10b]).Get "dup" [] =
      .ok (JValue.str "second") := by
  have hlast : ([providerC10a, providerC10b].filter fun p2 => p2.name = "dup").getLast? =
      some providerC10b := by
    simp [providerC10a, providerC10b]
  refine ⟨hlast, ?_⟩
  have happ := c10_duplicate_provider_names_last_wins.2.1
    [providerC10a, providerC10b] "dup" [] providerC10b hlast
  rw [happ]
  rfl

/-- Claim C1 counterexample: with a single non-optional provider whose
execution fails, executeProviders does report the aggregated error,
but Builder.Build swallows it and succeeds with the partial (empty)
backend map: the overall build call does not fail. -/
theorem c1_counterexample :
    providerCfgC1.optional = false ∧
    failExec "A" (providerCallParams providerCfgC1
        (Builder.buildProviderParams routeMatchC1 none)) =
      .error (.providerFailed "A" "boom") ∧
    (executeProviders failExec [providerCfgC1]
        (Builder.buildProviderParams routeMatchC1 none)).2 =
      some (.multipleProvidersFailed ["A"] [.providerFailed "A" "boom"]) ∧
    Builder.Build (fun _ => none) failExec (some routeMatchC1) none none =
      .ok { route := { path := "/p", name := "p", params := [], query := [] },
            user := none, frontend := none, backend := [],
            instructions := "", availableTools := [] } :=
  ⟨rfl, rfl, rfl, rfl⟩

/-- A nonempty error list survives prepending a configuration to the
fan-out loop. -/
theorem executeProvidersLoop_errors_mono
    (exec : String → List (String × JValue) → Except CtxError JValue)
    (baseParams : List (String × JValue)) (c0 : Manifest.Provider)
    (rest : List Manifest.Provider)
    (h : (executeProvidersLoop exec baseParams rest).providerErrors ≠ []) :
    (executeProvidersLoop exec baseParams (c0 :: rest)).providerErrors ≠ [] := by
  rw [executeProvidersLoop]
  by_cases hcond : c0.condition ≠ "" ∧
      ¬ Builder.evaluateCondition c0.condition baseParams
  · simpa [hcond] using h
  · simp only [hcond, if_neg, not_false_iff]
    cases hx : exec c0.name (providerCallParams c0 baseParams) with
    | error e =>
      by_cases hopt : c0.optional <;> simp [hopt, h]
    | ok data => simpa using h

/-- An eligible non-optional provider whose execution fails makes the
fan-out error list nonempty. -/
theorem executeProvidersLoop_fail_mem
    (exec : String → List (String × JValue) → Except CtxError JValue)
    (baseParams : List (String × JValue)) (configs : List Manifest.Provider)
    (cfg : Manifest.Provider) (hc : cfg ∈ configs)
    (helig : cfg.condition = "" ∨
      Builder.evaluateCondition cfg.condition baseParams = true)
    (hreq : cfg.optional = false) (e : CtxError)
    (hfail : exec cfg.name (providerCallParams cfg baseParams) = .error e) :
    (executeProvidersLoop exec baseParams configs).providerErrors ≠ [] := by
  induction configs with
  | nil => exact absurd hc (by simp)
  | cons c0 rest ih =>
    rcases List.mem_cons.mp hc with h | h
    · subst h
      rw [executeProvidersLoop]
      have hcond : ¬ (cfg.condition ≠ "" ∧
          ¬ Builder.evaluateCondition cfg.condition baseParams) := by
        rcases helig with h1 | h1
        · simp [h1]
        · simp [h1]
      simp only [hcond, if_neg, not_false_iff]
      rw [hfail]
      simp [hreq]
    · exact executeProvidersLoop_errors_mono exec baseParams c0 rest (ih h)

/-- Claim C1 as amended: when at least one eligible non-optional
provider of the route fails, executeProviders returns the aggregated
backend map together with a multi-provider-failed error, but
Builder.Build logs and swallows that error: the build call returns the
FullContext holding the partial aggregated map, with no error. -/
theorem c1_build_swallows_provider_failures
    (pd : String → Option Nat)
    (exec : String → List (String × JValue) → Except CtxError JValue)
    (rm : Manifest.RouteMatch) (frontend : Option FrontendContext)
    (user : Option User)
    (hload : LoadFromRouteConfig pd rm.route.context.providers = .ok ())
    (cfg : Manifest.Provider) (hc : cfg ∈ rm.route.context.providers)
    (helig : cfg.condition = "" ∨
      Builder.evaluateCondition cfg.condition
        (Builder.buildProviderParams rm user) = true)
    (hreq : cfg.optional = false) (e : CtxError)
    (hfail : exec cfg.name (providerCallParams cfg
        (Builder.buildProviderParams rm user)) = .error e) :
    (∃ failed errors,
        (executeProviders exec rm.route.context.providers
          (Builder.buildProviderParams rm user)).2 =
        some (.multipleProvidersFailed failed errors) ∧ errors ≠ []) ∧
    Builder.Build pd exec (some rm) frontend user =
      .ok { route := { path := rm.route.pattern, name := rm.route.name,
                       params := rm.params, query := rm.query },
            user := user, frontend := frontend,
            backend := (executeProviders exec rm.route.context.providers
              (Builder.buildProviderParams rm user)).1,
            instructions := rm.route.agentInstructions,
            availableTools := rm.route.tools.map fun t => t.name } := by
  have herr := executeProvidersLoop_fail_mem exec
    (Builder.buildProviderParams rm user) rm.route.context.providers cfg hc helig hreq e hfail
  constructor
  · cases hpe : (executeProvidersLoop exec (Builder.buildProviderParams rm user)
        rm.route.context.providers).providerErrors with
    | nil => exact absurd hpe herr
    | cons e0 es0 =>
      refine ⟨(executeProvidersLoop exec (Builder.buildProviderParams rm user)
          rm.route.context.providers).failedProviders, e0 :: es0, ?_, by simp⟩
      rw [executeProviders]
      simp only [hpe]
  · rw [Builder.Build, hload]

theorem c1_build_swallows_provider_failures_witness :
    (∃ failed errors,
        (executeProviders failExec routeMatchC1.route.context.providers
          (Builder.buildProviderParams routeMatchC1 none)).2 =
          some (CtxError.multipleProvidersFailed failed errors) ∧ errors ≠ []) ∧
    Builder.Build (fun _ => none) failExec (some routeMatchC1) none none =
      .ok { route := { path := routeMatchC1.route.pattern,
                       name := routeMatchC1.route.name,
                       params := routeMatchC1.params, query := routeMatchC1.query },
            user := none, frontend := none,
            backend := (executeProviders failExec routeMatchC1.route.context.providers
              (Builder.buildProviderParams routeMatchC1 none)).1,
            instructions := routeMatchC1.route.agentInstructions,
            availableTools := routeMatchC1.route.tools.map fun t => t.name } :=
  c1_build_swallows_provider_failures (fun _ => none) failExec routeMatchC1 none none rfl
    providerCfgC1 (by simp [routeMatchC1, routeC1]) (Or.inl rfl) rfl
    (CtxError.providerFailed "A" "boom") rfl

end Ctx

namespace Tools

/-! ## Claim C7 -/
/-- Splitting the parameter list: the suffix runs from the prefix's
result map, and a prefix error aborts. -/
theorem resolveParamsAux_append (tn : String) (ap w : List (String × JValue))
    (ps1 ps2 : List Manifest.ToolParameter) : ∀ acc : List (String × JValue),
    resolveParamsAux tn ap w (ps1 ++ ps2) acc =
      match resolveParamsAux tn ap w ps1 acc with
      | .error e => .error e
      | .ok acc2 => resolveParamsAux tn ap w ps2 acc2 := by
  induction ps1 with
  | nil => intro acc; simp [resolveParamsAux]
  | cons p rest ih =>
    intro acc
    have hL : resolveParamsAux tn ap w (p :: (rest ++ ps2)) acc =
        match resolveParamStep tn ap w p acc with
        | .error e => .error e
        | .ok acc2 => resolveParamsAux tn ap w (rest ++ ps2) acc2 := by
      rw [resolveParamsAux]
    have hR : resolveParamsAux tn ap w (p :: rest) acc =
        match resolveParamStep tn ap w p acc with
        | .error e => .error e
        | .ok acc2 => resolveParamsAux tn ap w rest acc2 := by
      rw [resolveParamsAux]
    rw [List.cons_append, hL, hR]
    cases resolveParamStep tn ap w p acc with
    | error e => rfl
    | ok acc2 => exact ih acc2

/-- A successful step leaves the result map unchanged or assigns the
parameter's own name. -/
theorem resolveParamStep_ok_shape (tn : String) (ap w : List (String × JValue))
    (p : Manifest.ToolParameter) (acc acc2 : List (String × JValue))
    (h : resolveParamStep tn ap w p acc = .ok acc2) :
    acc2 = acc ∨ ∃ v, acc2 = upsert acc p.name v := by
  rw [resolveParamStep] at h
  by_cases h1 : p.source = "agent"
  · simp only [h1, if_pos] at h
    cases halk : alookup ap p.name with
    | some v =>
      rw [halk] at h
      exact Or.inr ⟨v, (Except.ok.inj h).symm⟩
    | none =>
      rw [halk] at h
      by_cases hreq : p.required
      · simp [hreq] at h
      · simp only [hreq, if_neg, not_false_iff] at h
        cases hd : p.default with
        | some d =>
          rw [hd] at h
          exact Or.inr ⟨d, (Except.ok.inj h).symm⟩
        | none =>
          rw [hd] at h
          exact Or.inl (Except.ok.inj h).symm
  · simp only [h1, if_neg, not_false_iff] at h
    by_cases h2 : p.source = "route"
    · simp only [h2, if_pos] at h
      cases halk : alookup w p.name with
      | some v =>
        rw [halk] at h
        exact Or.inr ⟨v, (Except.ok.inj h).symm⟩
      | none =>
        rw [halk] at h
        by_cases hreq : p.required
        · simp [hreq] at h
        · simp only [hreq, if_neg, not_false_iff] at h
          exact Or.inl (Except.ok.inj h).symm
    · simp only [h2, if_neg, not_false_iff] at h
      by_cases h3 : p.source = "context"
      · simp only [h3, if_pos] at h
        by_cases hcp : p.contextPath = ""
        · simp [hcp] at h
        · simp only [hcp, if_neg, not_false_iff] at h
          cases hex : extractFromContext p.contextPath w with
          | error msg =>
            rw [hex] at h
            by_cases hreq : p.required
            · simp [hreq] at h
            · simp only [hreq, if_neg, not_false_iff] at h
              exact Or.inl (Except.ok.inj h).symm
          | ok v =>
            rw [hex] at h
            exact Or.inr ⟨v, (Except.ok.inj h).symm⟩
      · simp only [h3, if_neg, not_false_iff] at h
        exact Or.inl (Except.ok.inj h).symm

/-- A name no declared parameter carries stays absent through the
resolution loop. -/
theorem resolveParamsAux_preserves_absent (tn : String)
    (ap w : List (String × JValue)) (ps : List Manifest.ToolParameter) :
    ∀ (acc final : List (String × JValue)) (n : String),
    alookup acc n = none → (∀ q ∈ ps, q.name ≠ n) →
    resolveParamsAux tn ap w ps acc = .ok final → alookup final n = none := by
  induction ps with
  | nil =>
    intro acc final n h1 h2 h3
    rw [resolveParamsAux] at h3
    rw [← Except.ok.inj h3]
    exact h1
  | cons p rest ih =>
    intro acc final n h1 h2 h3
    rw [resolveParamsAux] at h3
    cases hstep : resolveParamStep tn ap w p acc with
    | error e =>
      rw [hstep] at h3
      exact absurd h3 (by simp)
    | ok acc2 =>
      rw [hstep] at h3
      have hn : p.name ≠ n := h2 p (by simp)
      have h1b : alookup acc2 n = none := by
        rcases resolveParamStep_ok_shape tn ap w p acc acc2 hstep with h4 | ⟨v, h4⟩
        · rw [h4]; exact h1
        · rw [h4, alookup_upsert_ne _ _ _ _ hn]; exact h1
      exact ih acc2 final n h1b (fun q hq => h2 q (by simp [hq])) h3

/-- Claim C7: in HTTPTool parameter resolution, when every parameter
before p resolves successfully into the map acc: a required
agent-sourced p missing from the parsed arguments fails with a
missing-parameter error; a non-required missing agent p with a default
continues with the default recorded; a required context-sourced p whose
context path fails to traverse fails with a parameter-resolution error;
and a non-required one is skipped, the resolution continuing from acc
with p's name absent from the final map when nothing else writes it. -/
theorem c7_parameter_resolution_policy :
    (∀ (tn : String) (ap w : List (String × JValue))
        (ps1 ps2 : List Manifest.ToolParameter) (p : Manifest.ToolParameter)
        (acc : List (String × JValue)),
      resolveParamsAux tn ap w ps1 [] = .ok acc →
      p.source = "agent" → alookup ap p.name = none → p.required = true →
      HTTPTool.resolveParameters tn (ps1 ++ p :: ps2) ap w =
        .error (.missingParameter tn p.name)) ∧
    (∀ (tn : String) (ap w : List (String × JValue))
        (ps1 ps2 : List Manifest.ToolParameter) (p : Manifest.ToolParameter)
        (acc : List (String × JValue)) (d : JValue),
      resolveParamsAux tn ap w ps1 [] = .ok acc →
      p.source = "agent" → alookup ap p.name = none → p.required = false →
      p.default = some d →
      HTTPTool.resolveParameters tn (ps1 ++ p :: ps2) ap w =
        resolveParamsAux tn ap w ps2 (upsert acc p.name d) ∧
      alookup (upsert acc p.name d) p.name = some d) ∧
    (∀ (tn : String) (ap w : List (String × JValue))
        (ps1 ps2 : List Manifest.ToolParameter) (p : Manifest.ToolParameter)
        (acc : List (String × JValue)) (msg : String),
      resolveParamsAux tn ap w ps1 [] = .ok acc →
      p.source = "context" → p.contextPath ≠ "" →
      extractFromContext p.contextPath w = .error msg → p.required = true →
      HTTPTool.resolveParameters tn (ps1 ++ p :: ps2) ap w =
        .error (.parameterResolution tn p.name msg)) ∧
    (∀ (tn : String) (ap w : List (String × JValue))
        (ps1 ps2 : List Manifest.ToolParameter) (p : Manifest.ToolParameter)
        (acc : List (String × JValue)) (msg : String),
      resolveParamsAux tn ap w ps1 [] = .ok acc →
      p.source = "context" → p.contextPath ≠ "" →
      extractFromContext p.contextPath w = .error msg → p.required = false →
      HTTPTool.resolveParameters tn (ps1 ++ p :: ps2) ap w =
        resolveParamsAux tn ap w ps2 acc ∧
      (∀ final, alookup acc p.name = none → (∀ q ∈ ps2, q.name ≠ p.name) →
        resolveParamsAux tn ap w ps2 acc = .ok final →
        alookup final p.name = none)) := by
  have hsplit : ∀ (tn : String) (ap w : List (String × JValue))
      (ps1 ps2 : List Manifest.ToolParameter) (p : Manifest.ToolParameter)
      (acc : List (String × JValue)),
      resolveParamsAux tn ap w ps1 [] = .ok acc →
      HTTPTool.resolveParameters tn (ps1 ++ p :: ps2) ap w =
        match resolveParamStep tn ap w p acc with
        | .error e => .error e
        | .ok acc2 => resolveParamsAux tn ap w ps2 acc2 := by
    intro tn ap w ps1 ps2 p acc hpre
    rw [HTTPTool.resolveParameters, resolveParamsAux_append, hpre]
    show resolveParamsAux tn ap w (p :: ps2) acc = _
    rw [resolveParamsAux]
  refine ⟨?_, ?_, ?_, ?_⟩
  · intro tn ap w ps1 ps2 p acc hpre hsrc hmiss hreq
    rw [hsplit tn ap w ps1 ps2 p acc hpre, resolveParamStep]
    simp [hsrc, hmiss, hreq]
  · intro tn ap w ps1 ps2 p acc d hpre hsrc hmiss hreq hdef
    refine ⟨?_, alookup_upsert_self acc p.name d⟩
    rw [hsplit tn ap w ps1 ps2 p acc hpre, resolveParamStep]
    simp [hsrc, hmiss, hreq, hdef]
  · intro tn ap w ps1 ps2 p acc msg hpre hsrc hcp hex hreq
    rw [hsplit tn ap w ps1 ps2 p acc hpre, resolveParamStep]
    have hsrc2 : p.source ≠ "agent" := by simp [hsrc]
    have hsrc3 : p.source ≠ "route" := by simp [hsrc]
    simp [hsrc, hsrc2, hsrc3, hcp, hex, hreq]
  · intro tn ap w ps1 ps2 p acc msg hpre hsrc hcp hex hreq
    have hsrc2 : p.source ≠ "agent" := by simp [hsrc]
    have hsrc3 : p.source ≠ "route" := by simp [hsrc]
    constructor
    · rw [hsplit tn ap w ps1 ps2 p acc hpre, resolveParamStep]
      simp [hsrc, hsrc2, hsrc3, hcp, hex, hreq]
    · intro final habs hnames hrun
      exact resolveParamsAux_preserves_absent tn ap w ps2 acc final p.name habs hnames hrun

theorem c7_parameter_resolution_policy_witness :
    HTTPTool.resolveParameters "t" [paramAgentReq] [] [] =
      .error (.missingParameter "t" "x") ∧
    (HTTPTool.resolveParameters "t" [paramAgentDef] [] [] =
        resolveParamsAux "t" [] [] [] (upsert [] "x" (JValue.str "d")) ∧
      alookup (upsert [] "x" (JValue.str "d")) "x" = some (JValue.str "d")) ∧
    HTTPTool.resolveParameters "t" [paramCtxReq] [] [] =
      .error (.parameterResolution "t" "y" "path segment not found: backend") ∧
    HTTPTool.resolveParameters "t" [paramCtxOpt] [] [] =
      resolveParamsAux "t" [] [] [] [] := by
  have hex : extractFromContext "backend.x" [] =
      .error "path segment not found: backend" := by
    simp [extractFromContext, extractGo, trimChars, hasPrefixChars, alookup]
  refine ⟨?_, ?_, ?_, ?_⟩
  · exact c7_parameter_resolution_policy.1 "t" [] [] [] [] paramAgentReq []
      rfl rfl rfl rfl
  · exact c7_parameter_resolution_policy.2.1 "t" [] [] [] [] paramAgentDef []
      (JValue.str "d") rfl rfl rfl rfl rfl
  · exact c7_parameter_resolution_policy.2.2.1 "t" [] [] [] [] paramCtxReq []
      "path segment not found: backend" rfl rfl (by simp [paramCtxReq]) hex rfl
  · exact (c7_parameter_resolution_policy.2.2.2 "t" [] [] [] [] paramCtxOpt []
      "path segment not found: backend" rfl rfl (by simp [paramCtxOpt]) hex rfl).1

end Tools

/-! ## Claim C5 -/
/-- Claim C5 (code bug): the tool template resolver's own comment says
it replaces both the single-brace and the double-brace form of a key
with the parameter value, but it replaces the single-brace form first,
which rewrites a double-braced placeholder into the value wrapped in
one brace pair instead of the bare value; the provider resolver only
handles the single-brace form and produces the same wrapped result.
So the double-brace form does not have semantics identical to the
single-brace form. -/
theorem c5_double_brace_alias_broken :
    Tools.HTTPTool.resolveTemplate "" (fun _ => "") [("key", JValue.str "42")]
        "\x7b\x7bkey\x7d\x7d" = "\x7b42\x7d" ∧
    Ctx.HTTPProvider.resolveTemplate (fun _ => "") [("key", JValue.str "42")]
        "\x7b\x7bkey\x7d\x7d" = "\x7b42\x7d" ∧
    Tools.HTTPTool.resolveTemplate "" (fun _ => "") [("key", JValue.str "42")]
        "\x7bkey\x7d" = "42" ∧
    ("\x7b42\x7d" : String) ≠ "42" := by
  refine ⟨?_, ?_, ?_, by decide⟩
  · simp [Tools.HTTPTool.resolveTemplate, Tools.resolveEnvVarsTool, containsSub,
      hasPrefixChars, replaceAll, JValue.toGoString]
  · simp [Ctx.HTTPProvider.resolveTemplate, Ctx.resolveEnvVars, containsSub,
      hasPrefixChars, replaceAll, JValue.toGoString]
  · simp [Tools.HTTPTool.resolveTemplate, Tools.resolveEnvVarsTool, containsSub,
      hasPrefixChars, replaceAll, JValue.toGoString]

namespace Memoryx

/-- Claim C8 counterexample: a session that received an injected
updated-context system message has two system rows; Clear removes only
non-system rows, so Messages afterwards returns both system messages,
not exactly the single seeded one. -/
theorem c8_counterexample :
    SessionMemory.Messages "s"
        (SessionMemory.Clear "s" [seedRowC8, injectedRowC8, userRowC8]) =
      [ToLLMMessage seedRowC8, ToLLMMessage injectedRowC8] ∧
    [ToLLMMessage seedRowC8, ToLLMMessage injectedRowC8] ≠
      [ToLLMMessage seedRowC8] := by
  refine ⟨rfl, ?_⟩
  decide

/-- Claim C8 as amended: after Clear, BufferMemory.Messages returns
exactly the seeded system message (or the empty list when no system
message is configured); SessionMemory.Clear removes exactly the
session's non-system rows, so Messages afterwards returns exactly the
seeded system message whenever the seed is the session's only
system-role row. -/
theorem c8_clear_keeps_exactly_system (m : BufferMemory) (sessionID : String)
    (store : List SessionMessage) (seed : SessionMessage)
    (hseed : store.filter (fun r => r.sessionId = sessionID ∧ r.role = "system") =
      [seed]) :
    (m.Clear).Messages =
      (if m.systemMessage.content = "" then [] else [m.systemMessage]) ∧
    SessionMemory.Messages sessionID (SessionMemory.Clear sessionID store) =
      [ToLLMMessage seed] := by
  constructor
  · rw [BufferMemory.Clear, BufferMemory.Messages]
    by_cases h : m.systemMessage.content = "" <;> simp [h]
  · have hff : (ClearMessages sessionID store).filter
        (fun r => r.sessionId = sessionID) =
        store.filter (fun r => r.sessionId = sessionID ∧ r.role = "system") := by
      rw [ClearMessages, List.filter_filter]
      apply List.filter_congr
      intro r hr
      by_cases h1 : r.sessionId = sessionID <;>
        by_cases h2 : r.role = "system" <;> simp [h1, h2]
    rw [SessionMemory.Messages, SessionMemory.Clear, GetMessages, hff, hseed]
    rfl

theorem c8_clear_keeps_exactly_system_witness :
    ([seedRowC8, userRowC8].filter
        (fun r => r.sessionId = "s" ∧ r.role = "system") = [seedRowC8]) ∧
    ((NewBufferMemory (Llm.NewSystemMessage "sys")).Clear).Messages =
      [Llm.NewSystemMessage "sys"] ∧
    SessionMemory.Messages "s" (SessionMemory.Clear "s" [seedRowC8, userRowC8]) =
      [ToLLMMessage seedRowC8] := by
  have hseed : [seedRowC8, userRowC8].filter
      (fun r => r.sessionId = "s" ∧ r.role = "system") = [seedRowC8] := by decide
  have happ := c8_clear_keeps_exactly_system
    (NewBufferMemory (Llm.NewSystemMessage "sys")) "s" [seedRowC8, userRowC8]
    seedRowC8 hseed
  refine ⟨hseed, ?_, happ.2⟩
  rw [happ.1]
  decide

end Memoryx

namespace Agentx

theorem countLLMCalls_append (xs ys : List AgentEvent) :
    countLLMCalls (xs ++ ys) = countLLMCalls xs + countLLMCalls ys :=
  List.countP_append _ _ _

theorem countToolInvocations_append (xs ys : List AgentEvent) :
    countToolInvocations (xs ++ ys) =
      countToolInvocations xs + countToolInvocations ys :=
  List.countP_append _ _ _

theorem countLLMCalls_cons_llm (ch : Option String) (it : Option Nat)
    (xs : List AgentEvent) :
    countLLMCalls (AgentEvent.llmCall ch it :: xs) = countLLMCalls xs + 1 := by
  simp [countLLMCalls, List.countP_cons, isLLMCallEvent]

theorem countLLMCalls_cons_tool (n : String) (xs : List AgentEvent) :
    countLLMCalls (AgentEvent.toolInvoke n :: xs) = countLLMCalls xs := by
  simp [countLLMCalls, List.countP_cons, isLLMCallEvent]

theorem countToolInvocations_cons_llm (ch : Option String) (it : Option Nat)
    (xs : List AgentEvent) :
    countToolInvocations (AgentEvent.llmCall ch it :: xs) =
      countToolInvocations xs := by
  simp [countToolInvocations, List.countP_cons, isToolInvokeEvent]

theorem countToolInvocations_cons_tool (n : String) (xs : List AgentEvent) :
    countToolInvocations (AgentEvent.toolInvoke n :: xs) =
      countToolInvocations xs + 1 := by
  simp [countToolInvocations, List.countP_cons, isToolInvokeEvent]

theorem execToolCalls_events_shape (tc : ToolxClient) (tcs : List Llm.ToolCall) :
    ∀ (mem : List Llm.Message) (e : AgentEvent),
    e ∈ (execToolCalls tc tcs mem).events → ∃ n, e = .toolInvoke n := by
  induction tcs with
  | nil => intro mem e he; simp [execToolCalls] at he
  | cons t rest ih =>
    intro mem e he
    rw [execToolCalls] at he
    cases hc : tc.call t with
    | error msg =>
      rw [hc] at he
      simp only [List.mem_singleton] at he
      exact ⟨t.function.name, he⟩
    | ok msg =>
      rw [hc] at he
      simp only [List.mem_cons] at he
      rcases he with he | he
      · exact ⟨t.function.name, he⟩
      · exact ih _ e he

theorem execToolCalls_counts (tc : ToolxClient) (tcs : List Llm.ToolCall) :
    ∀ mem : List Llm.Message,
    countToolInvocations (execToolCalls tc tcs mem).events ≤ tcs.length ∧
    countLLMCalls (execToolCalls tc tcs mem).events = 0 := by
  induction tcs with
  | nil => intro mem; simp [execToolCalls, countToolInvocations, countLLMCalls]
  | cons t rest ih =>
    intro mem
    rw [execToolCalls]
    cases hc : tc.call t with
    | error msg =>
      simp only [countToolInvocations_cons_tool, countLLMCalls_cons_tool]
      constructor
      · simp only [countToolInvocations, List.countP_nil, List.length_cons]
        omega
      · simp [countLLMCalls]
    | ok msg =>
      obtain ⟨h1, h2⟩ := ih (mem ++ [msg])
      simp only [countToolInvocations_cons_tool, countLLMCalls_cons_tool,
        List.length_cons]
      exact ⟨by omega, h2⟩

/-- The iteration bound of the tool-call loop: each entered iteration
makes one LLM call and at most toolsPerCall tool invocations, and the
loop runs at most maxTotalIterations - iteration iterations. -/
theorem handle_counts (a : Agent) (tc : ToolxClient) (llm : Nat → Llm.Response)
    (tpc : Nat) (hllm : ∀ n, (llm n).message.toolCalls.length ≤ tpc) :
    ∀ (fuel : Nat) (toolCalls : List Llm.ToolCall) (iteration callIdx : Nat)
      (mem : List Llm.Message),
    a.maxTotalIterations - iteration ≤ fuel → toolCalls.length ≤ tpc →
    countLLMCalls (handleToolCallsWithLimit a tc llm toolCalls iteration callIdx
      mem).trace ≤ a.maxTotalIterations - iteration ∧
    countToolInvocations (handleToolCallsWithLimit a tc llm toolCalls iteration
      callIdx mem).trace ≤ (a.maxTotalIterations - iteration) * tpc := by
  intro fuel
  induction fuel with
  | zero =>
    intro tcs iter cidx mem hfuel htcs
    have hge : iter ≥ a.maxTotalIterations := by omega
    rw [handleToolCallsWithLimit]
    simp [hge, countLLMCalls, countToolInvocations]
  | succ f ih =>
    intro tcs iter cidx mem hfuel htcs
    rw [handleToolCallsWithLimit]
    by_cases hge : iter ≥ a.maxTotalIterations
    · simp [hge, countLLMCalls, countToolInvocations]
    · have hone : a.maxTotalIterations - iter =
          (a.maxTotalIterations - (iter + 1)) + 1 := by omega
      have hmul : (a.maxTotalIterations - iter) * tpc =
          (a.maxTotalIterations - (iter + 1)) * tpc + tpc := by
        rw [hone, Nat.succ_mul]
      obtain ⟨hte1, hte2⟩ := execToolCalls_counts tc tcs mem
      have htetpc : countToolInvocations (execToolCalls tc tcs mem).events ≤ tpc :=
        le_trans hte1 htcs
      simp only [hge, dif_neg, not_false_iff]
      simp only [countLLMCalls, countToolInvocations] at hte1 hte2 htetpc
      cases hfail : (execToolCalls tc tcs mem).failed with
      | some e =>
        simp only [hfail]
        simp only [countLLMCalls, countToolInvocations]
        constructor
        · omega
        · generalize hB : (a.maxTotalIterations - iter) * tpc = B at hmul ⊢
          generalize hA : (a.maxTotalIterations - (iter + 1)) * tpc = A at hmul
          omega
      | none =>
        simp only [hfail]
        by_cases hempt : (llm cidx).message.toolCalls.isEmpty
        · simp only [hempt, if_pos]
          simp [countLLMCalls, countToolInvocations, List.countP_append,
            List.countP_cons, List.countP_nil, isLLMCallEvent, isToolInvokeEvent]
          constructor
          · omega
          · generalize hB : (a.maxTotalIterations - iter) * tpc = B at hmul ⊢
            generalize hA : (a.maxTotalIterations - (iter + 1)) * tpc = A at hmul
            omega
        · simp only [hempt, if_neg, not_false_iff]
          obtain ⟨hn1, hn2⟩ := ih (llm cidx).message.toolCalls (iter + 1) (cidx + 1)
            ((execToolCalls tc tcs mem).memory ++ [(llm cidx).message])
            (by omega) (hllm cidx)
          simp only [countLLMCalls, countToolInvocations] at hn1 hn2
          simp [countLLMCalls, countToolInvocations, List.countP_append,
            List.countP_cons, List.countP_nil, isLLMCallEvent, isToolInvokeEvent]
          constructor
          · omega
          · generalize hB : (a.maxTotalIterations - iter) * tpc = B at hmul ⊢
            generalize hA : (a.maxTotalIterations - (iter + 1)) * tpc = A at hmul hn2
            omega

/-- Claim C2: for every user input and every sequence of LLM responses
(each carrying at most toolsPerCall tool calls), Run makes at most
maxTotalIterations + 1 LLM calls and at most
(maxTotalIterations + 1) * toolsPerCall tool invocations; the loop
terminates because the iteration counter strictly increases against
the maxTotalIterations ceiling (the model is total by recursion on
maxTotalIterations - iteration). -/
theorem c2_run_iteration_bounds (a : Agent) (llm : Nat → Llm.Response)
    (userInput : String) (mem0 : List Llm.Message) (tpc : Nat)
    (hllm : ∀ n, (llm n).message.toolCalls.length ≤ tpc) :
    countLLMCalls (Agent.Run a llm userInput mem0).trace ≤
      a.maxTotalIterations + 1 ∧
    countToolInvocations (Agent.Run a llm userInput mem0).trace ≤
      (a.maxTotalIterations + 1) * tpc := by
  rw [Agent.Run]
  cases a.tools with
  | none =>
    simp [countLLMCalls, countToolInvocations, List.countP_cons, List.countP_nil,
      isLLMCallEvent, isToolInvokeEvent]
  | some tc =>
    by_cases hempt : (llm 0).message.toolCalls.isEmpty
    · simp [hempt, countLLMCalls, countToolInvocations, List.countP_cons,
        List.countP_nil, isLLMCallEvent, isToolInvokeEvent]
    · obtain ⟨hn1, hn2⟩ := handle_counts a tc llm tpc hllm a.maxTotalIterations
        (llm 0).message.toolCalls 0 1
        ((mem0 ++ [Llm.NewUserMessage userInput]) ++ [(llm 0).message])
        (by omega) (hllm 0)
      have hb : a.maxTotalIterations * tpc ≤ (a.maxTotalIterations + 1) * tpc :=
        Nat.mul_le_mul_right tpc (by omega)
      simp [hempt, countLLMCalls, countToolInvocations, List.countP_cons,
        List.countP_nil, isLLMCallEvent, isToolInvokeEvent] at hn1 hn2 ⊢
      constructor
      · omega
      · omega

theorem c2_run_iteration_bounds_witness :
    (∀ n, (llmAlwaysTool n).message.toolCalls.length ≤ 1) ∧
    countLLMCalls (Agent.Run ⟨2, 5, some echoClient⟩ llmAlwaysTool "hi" []).trace ≤
      5 + 1 ∧
    countToolInvocations
        (Agent.Run ⟨2, 5, some echoClient⟩ llmAlwaysTool "hi" []).trace ≤
      (5 + 1) * 1 := by
  have hllm : ∀ n, (llmAlwaysTool n).message.toolCalls.length ≤ 1 := by
    intro n
    simp [llmAlwaysTool]
  have happ := c2_run_iteration_bounds ⟨2, 5, some echoClient⟩ llmAlwaysTool "hi" []
    1 hllm
  exact ⟨hllm, happ.1, happ.2⟩

/-- Claim C4: every follow-up LLM call of the tool-call state machine
at iteration i, when the configured tool list is nonempty, carries
tool-choice auto exactly when i < maxAutoIterations and tool-choice
none otherwise. -/
theorem c4_tool_choice_schedule (a : Agent) (tc : ToolxClient)
    (llm : Nat → Llm.Response) (toolCalls : List Llm.ToolCall)
    (iteration callIdx : Nat) (mem : List Llm.Message)
    (htools : tc.tools ≠ []) :
    ∀ (ch : Option String) (it : Nat),
      AgentEvent.llmCall ch (some it) ∈
        (handleToolCallsWithLimit a tc llm toolCalls iteration callIdx mem).trace →
      ch = some (if it < a.maxAutoIterations then "auto" else "none") := by
  have haux : ∀ (fuel : Nat) (tcs : List Llm.ToolCall) (iter cidx : Nat)
      (mem2 : List Llm.Message), a.maxTotalIterations - iter ≤ fuel →
      ∀ (ch : Option String) (it : Nat),
        AgentEvent.llmCall ch (some it) ∈
          (handleToolCallsWithLimit a tc llm tcs iter cidx mem2).trace →
        ch = some (if it < a.maxAutoIterations then "auto" else "none") := by
    intro fuel
    induction fuel with
    | zero =>
      intro tcs iter cidx mem2 hfuel ch it hmem
      have hge : iter ≥ a.maxTotalIterations := by omega
      rw [handleToolCallsWithLimit] at hmem
      simp [hge] at hmem
    | succ f ih =>
      intro tcs iter cidx mem2 hfuel ch it hmem
      rw [handleToolCallsWithLimit] at hmem
      by_cases hge : iter ≥ a.maxTotalIterations
      · simp [hge] at hmem
      · simp only [hge, dif_neg, not_false_iff] at hmem
        have hnotempty : tc.tools.isEmpty = false := by
          simp [List.isEmpty_iff, htools]
        cases hfail : (execToolCalls tc tcs mem2).failed with
        | some e =>
          rw [hfail] at hmem
          simp only at hmem
          obtain ⟨n, hn⟩ := execToolCalls_events_shape tc tcs mem2 _ hmem
          exact absurd hn (by simp)
        | none =>
          rw [hfail] at hmem
          simp only at hmem
          by_cases hempt : (llm cidx).message.toolCalls.isEmpty
          · simp only [hempt, if_pos, List.mem_append, List.mem_singleton] at hmem
            rcases hmem with hmem | hmem
            · obtain ⟨n, hn⟩ := execToolCalls_events_shape tc tcs mem2 _ hmem
              exact absurd hn (by simp)
            · rw [hnotempty] at hmem
              simp only [Bool.false_eq_true, if_neg, not_false_iff] at hmem
              have h1 : ch = (if iter < a.maxAutoIterations then some "auto"
                  else some "none") := by
                cases hmem
                rfl
              have h2 : it = iter := by
                cases hmem
                rfl
              rw [h1, h2]
              by_cases hi : iter < a.maxAutoIterations <;> simp [hi]
          · simp only [hempt, Bool.false_eq_true, if_false, if_neg, not_false_iff,
              List.append_eq, List.mem_append, List.mem_singleton] at hmem
            rcases hmem with (hmem | hmem) | hmem
            · obtain ⟨n, hn⟩ := execToolCalls_events_shape tc tcs mem2 _ hmem
              exact absurd hn (by simp)
            · rw [hnotempty] at hmem
              simp only [Bool.false_eq_true, if_neg, not_false_iff] at hmem
              have h1 : ch = (if iter < a.maxAutoIterations then some "auto"
                  else some "none") := by
                cases hmem
                rfl
              have h2 : it = iter := by
                cases hmem
                rfl
              rw [h1, h2]
              by_cases hi : iter < a.maxAutoIterations <;> simp [hi]
            · exact ih (llm cidx).message.toolCalls (iter + 1) (cidx + 1) _
                (by omega) ch it hmem
  exact haux a.maxTotalIterations toolCalls iteration callIdx mem (by omega)

theorem c4_tool_choice_schedule_witness :
    echoClient.tools ≠ [] ∧
    (∀ (ch : Option String) (it : Nat),
      AgentEvent.llmCall ch (some it) ∈
        (handleToolCallsWithLimit ⟨2, 5, some echoClient⟩ echoClient llmAlwaysTool
          [⟨"1", ⟨"echo", "\x7b\x7d"⟩⟩] 0 1 []).trace →
      ch = some (if it < 2 then "auto" else "none")) := by
  have htools : echoClient.tools ≠ [] := by simp [echoClient]
  exact ⟨htools, c4_tool_choice_schedule ⟨2, 5, some echoClient⟩ echoClient
    llmAlwaysTool [⟨"1", ⟨"echo", "\x7b\x7d"⟩⟩] 0 1 [] htools⟩

end Agentx

end Ams
